import Mathlib

/-!
Shallow embedding of the scrapper repository's checkpoint-driven pipeline
(`scraper/pipeline.py`), canonical record store and materializer
(`scraper/store.py`), group-type classification (`scraper/aggregates.py`),
catalogue collection (`scraper/catalogue.py`) and CLI exit behaviour
(`run.py`).

Modelling conventions:
* SQLite tables become Lean lists of structure values; `INSERT OR REPLACE`
  and `ON CONFLICT ... DO UPDATE` become replace-in-place on the (unique)
  primary-key match.
* Timestamp columns (`updated_at`, `created_at`) are diagnostic only and are
  omitted from the embedding; no claim mentions them.
* Python exceptions are modelled with `Option`/`Except`: `none` / `.error`
  marks the place where the source raises, and callers that wrap the call in
  `try/except` pattern-match on it.
* The CSV / Parquet output files are modelled as `Option (List CsvRow)`
  (`none` = the file does not exist yet); reading a written file back gives
  the same rows (pandas round-trip on plain string cells).
-/

namespace Scrapper

/-! ### Character-list string primitives

Python's `str.strip`/`str.upper`/`str.startswith` and SQLite's BINARY
collation are modelled on the character list underlying a `String`
(UTF-8 byte order and code-point order agree). -/

/-- Python `s.strip()`: drop whitespace from both ends. -/
def pyStrip (s : String) : String :=
  String.mk (((s.data.dropWhile Char.isWhitespace).reverse.dropWhile Char.isWhitespace).reverse)

/-- Python `s.upper()` (ASCII case mapping). -/
def pyUpper (s : String) : String :=
  String.mk (s.data.map Char.toUpper)

/-- Python `s.startswith(p)`. -/
def strStartsWith (s p : String) : Bool :=
  p.data.isPrefixOf s.data

/-- Strict lexicographic order on character lists by code point — the order
SQLite's BINARY collation gives to (UTF-8) TEXT values. -/
def charListLt : List Char → List Char → Bool
  | _, [] => false
  | [], _ :: _ => true
  | a :: as, b :: bs =>
    if a.toNat < b.toNat then true
    else if b.toNat < a.toNat then false
    else charListLt as bs

/-- `s ≤ t` in the BINARY collation. -/
def strLeB (s t : String) : Bool := ! charListLt t.data s.data

theorem charListLt_asymm : ∀ {a b : List Char},
    charListLt a b = true → charListLt b a = false
  | a, [], h => by cases a <;> simp [charListLt] at h
  | [], _ :: _, _ => by simp [charListLt]
  | a :: as, b :: bs, h => by
    simp only [charListLt] at h ⊢
    by_cases h1 : a.toNat < b.toNat
    · simp [h1, Nat.lt_asymm h1]
    · by_cases h2 : b.toNat < a.toNat
      · simp [h1, h2] at h
      · simp only [h1, h2, if_false] at h ⊢
        exact charListLt_asymm h

theorem charListLt_trans : ∀ {a b c : List Char},
    charListLt a b = true → charListLt b c = true → charListLt a c = true
  | _, b, [], _, h2 => by cases b <;> simp [charListLt] at h2
  | a, [], _ :: _, h1, _ => by cases a <;> simp [charListLt] at h1
  | [], _ :: _, _ :: _, _, _ => rfl
  | a :: as, b :: bs, c :: cs, h1, h2 => by
    simp only [charListLt] at h1 h2 ⊢
    by_cases hab : a.toNat < b.toNat
    · by_cases hbc : b.toNat < c.toNat
      · simp [show a.toNat < c.toNat from lt_trans hab hbc]
      · by_cases hcb : c.toNat < b.toNat
        · simp [hbc, hcb] at h2
        · simp [show a.toNat < c.toNat from by omega]
    · by_cases hba : b.toNat < a.toNat
      · simp [hab, hba] at h1
      · simp only [hab, hba, if_false] at h1
        by_cases hbc : b.toNat < c.toNat
        · simp [show a.toNat < c.toNat from by omega]
        · by_cases hcb : c.toNat < b.toNat
          · simp [hbc, hcb] at h2
          · simp only [hbc, hcb, if_false] at h2
            simp only [show ¬ a.toNat < c.toNat from by omega,
              show ¬ c.toNat < a.toNat from by omega, if_false]
            exact charListLt_trans h1 h2

theorem charListLt_conn : ∀ {a b : List Char},
    charListLt a b = false → charListLt b a = false → a = b
  | [], [], _, _ => rfl
  | [], _ :: _, h, _ => by simp [charListLt] at h
  | _ :: _, [], _, h => by simp [charListLt] at h
  | a :: as, b :: bs, h1, h2 => by
    simp only [charListLt] at h1 h2
    by_cases c1 : a.toNat < b.toNat
    · simp [c1] at h1
    · by_cases c2 : b.toNat < a.toNat
      · simp [c1, c2] at h2
      · have hn : a.toNat = b.toNat := by omega
        have hab : a = b := Char.eq_of_val_eq (UInt32.toNat.inj hn)
        have : as = bs :=
          charListLt_conn (by simpa [c1, c2] using h1) (by simpa [c1, c2] using h2)
        rw [hab, this]

theorem strLeB_total (s t : String) : strLeB s t = true ∨ strLeB t s = true := by
  unfold strLeB
  by_cases h : charListLt t.data s.data = true
  · exact Or.inr (by simp [charListLt_asymm h])
  · exact Or.inl (by simp [Bool.not_eq_true] at h; simp [h])

theorem strLeB_trans {s t u : String} (h1 : strLeB s t = true)
    (h2 : strLeB t u = true) : strLeB s u = true := by
  unfold strLeB at *
  simp only [Bool.not_eq_true'] at h1 h2 ⊢
  by_cases h : charListLt u.data s.data = true
  · by_cases hst : charListLt s.data t.data = true
    · exact absurd (charListLt_trans h hst) (by simp [h2])
    · have : s.data = t.data :=
        charListLt_conn (by simpa using hst) h1
      rw [this] at h
      exact absurd h (by simp [h2])
  · simpa using h

/-! ### Data model (`scraper/datamodel.py`) -/

/-- `datamodel.Vehicle`. -/
structure Vehicle where
  vehicle_id : String
  vehicle_name : String
  model_code : String
  source_url : String
deriving DecidableEq

/-- `datamodel.TableIndex` — one Engine/Frame row on the aggregates page. -/
structure TableIndex where
  vehicle_id : String
  group_type : String
  s_no : String
  table_no : String
  group_desc : String
  group_code : String
  variant : Option String
  aggregates_url : String
deriving DecidableEq

/-- `datamodel.PartsPage`. -/
structure PartsPage where
  vehicle_id : String
  group_type : String
  table_no : String
  group_code : String
  parts_page_url : String
  image_path : Option String
deriving DecidableEq

/-- `datamodel.PartRow`. -/
structure PartRow where
  vehicle_id : String
  group_type : String
  table_no : String
  group_code : String
  ref_no : String
  part_no : String
  description : String
  remark : String
  req_no : String
  moq : String
  mrp : String
deriving DecidableEq

/-! ### Store state (`scraper/store.py` schema) -/

/-- Primary key of the `checkpoints` and `parts_pages` tables:
`(vehicle_id, group_type, table_no, group_code)`. -/
structure GroupKey where
  vehicle_id : String
  group_type : String
  table_no : String
  group_code : String
deriving DecidableEq

/-- One `checkpoints` row (minus `updated_at`). `row_count` is nullable. -/
structure Checkpoint where
  status : String
  row_count : Option Nat
  image_saved : Bool
  last_error : Option String
deriving DecidableEq

/-- One `parts_pages` row (minus key and `updated_at`). -/
structure PageRec where
  parts_page_url : String
  image_path : String
deriving DecidableEq

/-- One `parts` table row, restricted to the 14 columns actually written by
`upsert_part_rows` and read back by `_fetch_group_df` (the remaining columns
stay NULL on this code path). -/
structure DbRow where
  vehicle_id : String
  group_type : String
  table_no : String
  group_code : String
  ref_no : String
  part_no : String
  description : String
  remark : String
  req_no : String
  moq : String
  mrp : String
  image_path : String
  parts_page_url : String
  source_url : String
deriving DecidableEq

/-- One output-shard row, in the fixed `desired_cols` order of
`_overwrite_group_in_csv`. -/
structure CsvRow where
  vehicle_id : String
  vehicle_name : String
  model_code : String
  group_type : String
  table_no : String
  group_code : String
  group_desc : String
  ref_no : String
  part_no : String
  description : String
  remark : String
  req_no : String
  moq : String
  mrp : String
  image_path : String
  parts_page_url : String
  source_url : String
deriving DecidableEq

/-- Whole persistent state owned by `DataStore`: the SQLite tables plus the
materialized CSV / Parquet shards. -/
structure Store where
  checkpoints : List (GroupKey × Checkpoint)
  vehicles : List Vehicle
  partsPages : List (GroupKey × PageRec)
  parts : List DbRow
  milestones : List (Nat × String)
  csv : Option (List CsvRow)
  parquet : Option (List CsvRow)
deriving DecidableEq

/-- A freshly initialised store: empty tables, no shard files. -/
def emptyStore : Store :=
  { checkpoints := [], vehicles := [], partsPages := [], parts := [],
    milestones := [], csv := none, parquet := none }

/-! ### Association-list helpers (primary-key tables) -/

/-- `SELECT ... WHERE key = k` on a primary-key table. -/
def alookup {κ α : Type} [DecidableEq κ] : List (κ × α) → κ → Option α
  | [], _ => none
  | (k', v) :: t, k => if k' = k then some v else alookup t k

/-- `INSERT OR REPLACE` keyed on `k`: replace the (unique) existing row in
place, else append. -/
def aset {κ α : Type} [DecidableEq κ] : List (κ × α) → κ → α → List (κ × α)
  | [], k, v => [(k, v)]
  | (k', v') :: t, k, v => if k' = k then (k, v) :: t else (k', v') :: aset t k v

/-! ### Checkpoints (`DataStore.checkpoint_*`) -/

namespace DataStore

/-- `DataStore.checkpoint_status`. -/
def checkpoint_status (st : Store) (key : GroupKey) : Option String :=
  (alookup st.checkpoints key).map Checkpoint.status

/-- `DataStore.checkpoint_mark_done`. -/
def checkpoint_mark_done (st : Store) (key : GroupKey) (rowCount : Nat)
    (imageSaved : Bool) : Store :=
  { st with
    checkpoints := aset st.checkpoints key ⟨"done", some rowCount, imageSaved, none⟩ }

/-- `DataStore.checkpoint_mark_error` — `row_count` is set to NULL,
`image_saved` to 0. -/
def checkpoint_mark_error (st : Store) (key : GroupKey) (err : String) : Store :=
  { st with
    checkpoints := aset st.checkpoints key ⟨"error", none, false, some err⟩ }

/-- `DataStore.checkpoint_mark_pending`. -/
def checkpoint_mark_pending (st : Store) (key : GroupKey) : Store :=
  { st with
    checkpoints := aset st.checkpoints key ⟨"pending", none, false, none⟩ }

/-- `DataStore.save_vehicle` — `INSERT OR REPLACE` keyed on `vehicle_id`. -/
def save_vehicle (st : Store) (v : Vehicle) : Store :=
  { st with
    vehicles := (aset (st.vehicles.map (fun w => (w.vehicle_id, w))) v.vehicle_id v).map
      Prod.snd }

/-- `DataStore.upsert_parts_page` (also exposed as `save_parts_page`). -/
def upsert_parts_page (st : Store) (pp : PartsPage) : Store :=
  { st with
    partsPages := aset st.partsPages ⟨pp.vehicle_id, pp.group_type, pp.table_no, pp.group_code⟩
      ⟨pp.parts_page_url, pp.image_path.getD ""⟩ }

end DataStore

/-! ### Part-row upsert (`DataStore.upsert_part_rows`) -/

/-- The PartRow natural key targeted by `ON CONFLICT`:
`(vehicle_id, group_type, table_no, group_code, ref_no, part_no)`. -/
structure PartKey where
  vehicle_id : String
  group_type : String
  table_no : String
  group_code : String
  ref_no : String
  part_no : String
deriving DecidableEq

def rowKey (r : DbRow) : PartKey :=
  ⟨r.vehicle_id, r.group_type, r.table_no, r.group_code, r.ref_no, r.part_no⟩

/-- The `DO UPDATE SET` clause: replace exactly the eight mutable columns
with the excluded (new) values; identity columns stay. -/
def mergeRow (old new : DbRow) : DbRow :=
  { old with
    description := new.description
    remark := new.remark
    req_no := new.req_no
    moq := new.moq
    mrp := new.mrp
    image_path := new.image_path
    parts_page_url := new.parts_page_url
    source_url := new.source_url }

/-- One `INSERT ... ON CONFLICT DO UPDATE` against the unique index: the
(unique) conflicting row is updated in place, otherwise the row is inserted. -/
def upsertOne : List DbRow → DbRow → List DbRow
  | [], r => [r]
  | x :: t, r => if rowKey x = rowKey r then mergeRow x r :: t else x :: upsertOne t r

/-- The 14 columns of the `INSERT` in `upsert_part_rows`, projected from the
converted dict (`d['vehicle_id']`, ..., `d.get('source_url','')`). -/
def toDbRow (d : CsvRow) : DbRow :=
  ⟨d.vehicle_id, d.group_type, d.table_no, d.group_code, d.ref_no, d.part_no,
   d.description, d.remark, d.req_no, d.moq, d.mrp,
   d.image_path, d.parts_page_url, d.source_url⟩

namespace DataStore

/-- `DataStore.upsert_part_rows`: batched UPSERT; returns the count of rows
submitted (`len(dict_rows)`, `0` for an empty list). -/
def upsert_part_rows (st : Store) (dictRows : List CsvRow) : Store × Nat :=
  ({ st with parts := dictRows.foldl (fun t d => upsertOne t (toDbRow d)) st.parts },
   dictRows.length)

end DataStore

/-! ### SQLite `CAST(... AS INT)` and the read-back ordering -/

def digitsVal (ds : List Char) : Nat :=
  ds.foldl (fun n c => 10 * n + (c.toNat - '0'.toNat)) 0

/-- SQLite `CAST(s AS INTEGER)` on a TEXT value: leading whitespace is
skipped, then the longest prefix that reads as an (optionally signed)
integer is taken; if there is none the result is `0`. -/
def sqliteCastInt (s : String) : Int :=
  let cs := s.toList.dropWhile Char.isWhitespace
  let signed : Int × List Char :=
    match cs with
    | '-' :: t => (-1, t)
    | '+' :: t => (1, t)
    | _ => (1, cs)
  let ds := signed.2.takeWhile Char.isDigit
  if ds.isEmpty then 0 else signed.1 * (digitsVal ds : Int)

/-- First sort key of `_fetch_group_df`:
`CAST(NULLIF(ref_no, '') AS INT)` — `none` models SQL NULL (empty string). -/
def refCast (r : DbRow) : Option Int :=
  if r.ref_no = "" then none else some (sqliteCastInt r.ref_no)

/-- Strict order on the cast value with NULL greatest (`NULLS LAST` on an
ascending key). -/
def optLt : Option Int → Option Int → Prop
  | some x, some y => x < y
  | some _, none => True
  | none, _ => False

instance : ∀ x y : Option Int, Decidable (optLt x y)
  | some x, some y => inferInstanceAs (Decidable (x < y))
  | some _, none => .isTrue trivial
  | none, some _ => .isFalse id
  | none, none => .isFalse id

/-- The total ordering realised by
`ORDER BY CAST(NULLIF(ref_no,'') AS INT) NULLS LAST, ref_no`. -/
def RefLe (a b : DbRow) : Prop :=
  optLt (refCast a) (refCast b) ∨
    (refCast a = refCast b ∧ strLeB a.ref_no b.ref_no = true)

instance : DecidableRel RefLe := fun _ _ =>
  inferInstanceAs (Decidable (_ ∨ _))

theorem optLt_trans : ∀ {x y z : Option Int}, optLt x y → optLt y z → optLt x z
  | none, _, _, h, _ => h.elim
  | _, none, _, _, h => h.elim
  | some _, some _, none, _, _ => trivial
  | some _, some _, some _, h1, h2 => lt_trans h1 h2

theorem optLt_tri : ∀ x y : Option Int, optLt x y ∨ x = y ∨ optLt y x
  | none, none => Or.inr (Or.inl rfl)
  | none, some _ => Or.inr (Or.inr trivial)
  | some _, none => Or.inl trivial
  | some a, some b => by
    rcases lt_trichotomy a b with h | h | h
    · exact Or.inl h
    · exact Or.inr (Or.inl (by rw [h]))
    · exact Or.inr (Or.inr h)

instance : IsTotal DbRow RefLe where
  total a b := by
    rcases optLt_tri (refCast a) (refCast b) with h | h | h
    · exact Or.inl (Or.inl h)
    · rcases strLeB_total a.ref_no b.ref_no with h' | h'
      · exact Or.inl (Or.inr ⟨h, h'⟩)
      · exact Or.inr (Or.inr ⟨h.symm, h'⟩)
    · exact Or.inr (Or.inl h)

instance : IsTrans DbRow RefLe where
  trans a b c hab hbc := by
    rcases hab with h | ⟨h, h1⟩
    · rcases hbc with h' | ⟨h', _⟩
      · exact Or.inl (optLt_trans h h')
      · exact Or.inl (h' ▸ h)
    · rcases hbc with h' | ⟨h', h2⟩
      · exact Or.inl (h ▸ h')
      · exact Or.inr ⟨h.trans h', strLeB_trans h1 h2⟩

/-- The `WHERE` clause of `_fetch_group_df`. -/
def dbMatch (vid gt tn gc : String) (d : DbRow) : Bool :=
  d.vehicle_id == vid && d.group_type == gt && d.table_no == tn && d.group_code == gc

/-- `DataStore._fetch_group_df`: filter the canonical `parts` table down to
one group and sort by the SQL `ORDER BY` above. -/
def _fetch_group_df (parts : List DbRow) (vid gt tn gc : String) : List DbRow :=
  List.insertionSort RefLe (parts.filter (dbMatch vid gt tn gc))

/-! ### Materialization (`_overwrite_group_in_csv` / `..._parquet`,
`append_parts_rows`, `convert_parts_to_dict_list`) -/

/-- The boolean mask of `_overwrite_group_in_csv`: an existing row matches
the group of the first frame row on the four group-identity columns. -/
def sameGroupRow (r d0 : CsvRow) : Bool :=
  r.vehicle_id == d0.vehicle_id && r.group_type == d0.group_type &&
    r.table_no == d0.table_no && r.group_code == d0.group_code

namespace DataStore

/-- `DataStore._overwrite_group_in_csv` — result is the new file content;
`none` models the `IndexError` raised by `df_group[...].iloc[0]` when the
frame is empty while the CSV file exists. -/
def _overwrite_group_in_csv (csv : Option (List CsvRow)) (dfGroup : List CsvRow) :
    Option (List CsvRow) :=
  match csv with
  | some existing =>
    match dfGroup with
    | [] => none
    | d0 :: _ => some (existing.filter (fun r => ! sameGroupRow r d0) ++ dfGroup)
  | none => some dfGroup

/-- `DataStore._overwrite_group_in_parquet` — the broad `except` around the
read/filter step falls back to writing just `df_group`. -/
def _overwrite_group_in_parquet (pq : Option (List CsvRow)) (dfGroup : List CsvRow) :
    List CsvRow :=
  match pq, dfGroup with
  | some existing, d0 :: _ => existing.filter (fun r => ! sameGroupRow r d0) ++ dfGroup
  | _, _ => dfGroup

/-- `DataStore.convert_parts_to_dict_list`. -/
def convert_parts_to_dict_list (v : Vehicle) (ti : TableIndex) (pp : PartsPage)
    (partRows : List PartRow) : List CsvRow :=
  partRows.map fun pr =>
    ⟨v.vehicle_id, v.vehicle_name, v.model_code, ti.group_type, ti.table_no,
     ti.group_code, ti.group_desc, pr.ref_no, pr.part_no, pr.description,
     pr.remark, pr.req_no, pr.moq, pr.mrp, pp.image_path.getD "",
     pp.parts_page_url, v.source_url⟩

end DataStore

/-- The enrichment step of `append_parts_rows`: insert `vehicle_name`,
`model_code` and `group_desc` into the re-fetched canonical frame. -/
def enrichRow (vname mcode gdesc : String) (d : DbRow) : CsvRow :=
  ⟨d.vehicle_id, vname, mcode, d.group_type, d.table_no, d.group_code, gdesc,
   d.ref_no, d.part_no, d.description, d.remark, d.req_no, d.moq, d.mrp,
   d.image_path, d.parts_page_url, d.source_url⟩

namespace DataStore

/-- `DataStore.append_parts_rows`: UPSERT the group's rows, re-fetch the
canonical rows for the group and rewrite the shard(s). Second component
`none` models the exception paths (IndexError in the enrichment when
`dict_rows` is empty, or in the CSV mask when the fetched frame is empty and
the CSV exists); the returned store reflects all effects before the raise. -/
def append_parts_rows (st : Store) (v : Vehicle) (ti : TableIndex)
    (pp : PartsPage) (partRows : List PartRow) (writeCsv saveParquet : Bool) :
    Store × Option Nat :=
  let dictRows := convert_parts_to_dict_list v ti pp partRows
  let up := upsert_part_rows st dictRows
  let st1 := up.1
  if writeCsv || saveParquet then
    let df := _fetch_group_df st1.parts v.vehicle_id ti.group_type ti.table_no ti.group_code
    if df ≠ [] ∧ dictRows = [] then (st1, none)
    else
      let enriched :=
        match dictRows with
        | [] => ([] : List CsvRow)
        | c0 :: _ => df.map (enrichRow c0.vehicle_name c0.model_code c0.group_desc)
      if writeCsv then
        match _overwrite_group_in_csv st1.csv enriched with
        | none => (st1, none)
        | some newCsv =>
          let st2 := { st1 with csv := some newCsv }
          if saveParquet then
            ({ st2 with parquet := some (_overwrite_group_in_parquet st2.parquet enriched) },
             some up.2)
          else (st2, some up.2)
      else
        ({ st1 with parquet := some (_overwrite_group_in_parquet st1.parquet enriched) },
         some up.2)
  else (st1, some up.2)

/-- Modelled from the spec: `DataStore.is_vehicle_complete` is invoked by the
orchestrator (`pipeline.py`, vehicle-complete gate) with the vehicle id and
the freshly discovered group count, but its definition is not among the
sources here. Spec §4.1: a vehicle is skippable as a whole iff every group
currently discovered for it (count recomputed fresh each run) has checkpoint
status `done`. Modelled as: the number of `done` checkpoints recorded for
the vehicle equals the expected group count. -/
def is_vehicle_complete (st : Store) (vehicleId : String) (expectedGroups : Nat) : Bool :=
  (st.checkpoints.filter fun e =>
    e.1.vehicle_id == vehicleId && e.2.status == "done").length == expectedGroups

/-- Modelled from the spec: `DataStore.mark_milestone` is invoked by the
orchestrator every K vehicles but its definition is not among the sources
here. Spec §3 Milestone: an append-only progress marker
`(batch_number, last_vehicle_id, timestamp)`; the timestamp is omitted like
all other timestamps in this embedding. -/
def mark_milestone (st : Store) (batch : Nat) (vehicleId : String) : Store :=
  { st with milestones := st.milestones ++ [(batch, vehicleId)] }

end DataStore

/-! ### Group-type classification (`aggregates._infer_group_type`) -/

/-- Python `s.strip().upper()`. -/
def stripUpper (s : String) : String :=
  pyUpper (pyStrip s)

/-- `aggregates._infer_group_type`: ENGINE/FRAME decided per row from the
row's own tokens first, falling back to the table hint. -/
def _infer_group_type (tableNo groupCode fallback : String) : String :=
  let tn := stripUpper tableNo
  let gc := stripUpper groupCode
  if strStartsWith tn "E-" || strStartsWith gc "E-" then "ENGINE"
  else if strStartsWith tn "F-" || strStartsWith gc "F-" then "FRAME"
  else fallback

/-! ### Orchestrator (`pipeline.ScrapingPipeline._process_vehicles`) -/

/-- Per-group outcome of one loop iteration. -/
inductive GroupOutcome where
  | skippedDone
  | completed (rows : Nat)
  | failed
deriving DecidableEq

/-- Per-vehicle outcome of one iteration of the vehicle loop. -/
inductive VehicleResult where
  | discoveryFailed
  | noGroups
  | skippedVehicle
  | processed (outs : List (GroupKey × GroupOutcome))
deriving DecidableEq

/-- In-memory milestone counters of the pipeline object
(`_vehicles_processed`, `_milestone_batch`). -/
structure RunStats where
  vehiclesProcessed : Nat
  milestoneBatch : Nat
deriving DecidableEq

/-- `self._milestone_every = 30`. -/
def milestoneEvery : Nat := 30

/-- The Extractor collaborator: group discovery and per-group extraction.
`none` models a raised exception. -/
structure Extractor where
  indices : Vehicle → Option (List TableIndex)
  extract : Vehicle → TableIndex → Option (PartsPage × List PartRow × Bool)

/-- The checkpoint key built in the group loop. -/
def keyOf (v : Vehicle) (ti : TableIndex) : GroupKey :=
  ⟨v.vehicle_id, ti.group_type, ti.table_no, ti.group_code⟩

/-- One iteration of the group loop (`pipeline.py`, step 2b): skip if `done`
and not forcing, else mark pending, extract, persist, mark done; on any
exception mark error and continue. -/
def processGroup (force saveParquet : Bool) (st : Store) (v : Vehicle)
    (ti : TableIndex) (res : Option (PartsPage × List PartRow × Bool)) :
    Store × GroupOutcome :=
  let key := keyOf v ti
  if DataStore.checkpoint_status st key = some "done" ∧ force = false then
    (st, .skippedDone)
  else
    let st1 := DataStore.checkpoint_mark_pending st key
    match res with
    | none => (DataStore.checkpoint_mark_error st1 key "extraction failed", .failed)
    | some (pp, partRows, imageSaved) =>
      let st2 := DataStore.upsert_parts_page st1 pp
      if partRows = [] then
        (DataStore.checkpoint_mark_done st2 key 0 imageSaved, .completed 0)
      else
        match DataStore.append_parts_rows st2 v ti pp partRows true saveParquet with
        | (st3, none) =>
          (DataStore.checkpoint_mark_error st3 key "materialization failed", .failed)
        | (st3, some _) =>
          (DataStore.checkpoint_mark_done st3 key partRows.length imageSaved,
           .completed partRows.length)

/-- The group loop over the discovered indices, in order. -/
def processGroups (force saveParquet : Bool) (ext : Extractor) (v : Vehicle) :
    Store → List TableIndex → Store × List (GroupKey × GroupOutcome)
  | st, [] => (st, [])
  | st, ti :: rest =>
    let r := processGroup force saveParquet st v ti (ext.extract v ti)
    let rr := processGroups force saveParquet ext v r.1 rest
    (rr.1, (keyOf v ti, r.2) :: rr.2)

/-- `ScrapingPipeline._after_vehicle`: bump the processed counter and write a
milestone every `milestoneEvery` vehicles. -/
def afterVehicle (st : Store) (stats : RunStats) (v : Vehicle) : Store × RunStats :=
  let p := stats.vehiclesProcessed + 1
  if p % milestoneEvery = 0 then
    (DataStore.mark_milestone st (stats.milestoneBatch + 1) v.vehicle_id,
     ⟨p, stats.milestoneBatch + 1⟩)
  else (st, ⟨p, stats.milestoneBatch⟩)

/-- One iteration of the vehicle loop: discover groups (always), advance on
zero groups, skip the whole vehicle when the vehicle-complete gate holds and
not forcing, otherwise run the group loop; `_after_vehicle` runs on every
path, including a vehicle-level exception. -/
def processVehicle (force saveParquet : Bool) (ext : Extractor) (st : Store)
    (stats : RunStats) (v : Vehicle) : Store × RunStats × VehicleResult :=
  match ext.indices v with
  | none =>
    let a := afterVehicle st stats v
    (a.1, a.2, .discoveryFailed)
  | some indices =>
    if indices = [] then
      let a := afterVehicle st stats v
      (a.1, a.2, .noGroups)
    else if force = false ∧ DataStore.is_vehicle_complete st v.vehicle_id indices.length = true then
      let a := afterVehicle st stats v
      (a.1, a.2, .skippedVehicle)
    else
      let pg := processGroups force saveParquet ext v st indices
      let a := afterVehicle pg.1 stats v
      (a.1, a.2, .processed pg.2)

/-- The vehicle loop. -/
def processVehicles (force saveParquet : Bool) (ext : Extractor) :
    Store → RunStats → List Vehicle → Store × RunStats × List VehicleResult
  | st, stats, [] => (st, stats, [])
  | st, stats, v :: rest =>
    let r := processVehicle force saveParquet ext st stats v
    let rr := processVehicles force saveParquet ext r.1 r.2.1 rest
    (rr.1, rr.2.1, r.2.2 :: rr.2.2)

/-- `ScrapingPipeline.run` after vehicle collection: persist the vehicles,
then process them with fresh in-memory counters. -/
def pipelineRun (force saveParquet : Bool) (ext : Extractor)
    (vehicles : List Vehicle) (st0 : Store) : Store × RunStats × List VehicleResult :=
  let st1 := vehicles.foldl DataStore.save_vehicle st0
  processVehicles force saveParquet ext st1 ⟨0, 0⟩ vehicles

/-- The group keys actually attempted (marked pending) for one vehicle. -/
def attemptedOf : VehicleResult → List GroupKey
  | .processed outs => (outs.filter fun o => o.2 ≠ .skippedDone).map Prod.fst
  | _ => []

/-! ### Catalogue collection and CLI exit (`catalogue.collect_vehicles`,
`run.main`) -/

/-- What the rendered catalogue page offers: whether `#datatable-t2` exists,
and the raw `(name, modelCode)` pairs harvested across its pages. -/
structure CataloguePage where
  tableFound : Bool
  items : List (String × String)

/-- The dedup/filter loop at the end of `collect_vehicles`. -/
def dedupVehicles (slug : String → String) (url : String) :
    List (String × String) → List String → List Vehicle
  | [], _ => []
  | (name, model) :: rest, seen =>
    let n := name.trim
    let m := model.trim
    if n = "" ∨ m = "" then dedupVehicles slug url rest seen
    else if m ∈ seen then dedupVehicles slug url rest seen
    else ⟨slug n, n, m, url⟩ :: dedupVehicles slug url rest (m :: seen)

/-- `catalogue.collect_vehicles`: raises when the catalog table is absent or
no vehicle data was found; otherwise filters and dedups by model code. -/
def collect_vehicles (slug : String → String) (catalogUrl : String)
    (pg : CataloguePage) : Except String (List Vehicle) :=
  if pg.tableFound = false then .error "Main catalog table not found"
  else if pg.items = [] then .error "No vehicles found in catalog"
  else .ok (dedupVehicles slug catalogUrl pg.items [])

/-- `run.main`: any exception escaping the pipeline is caught and turned into
`sys.exit(1)`; a completed run exits 0. Vehicle collection is the only
source of run-level failure in `ScrapingPipeline.run`. -/
def mainModel (force saveParquet : Bool) (slug : String → String)
    (catalogUrl : String) (pg : CataloguePage) (ext : Extractor) (st0 : Store) :
    Nat × Store × List VehicleResult :=
  match collect_vehicles slug catalogUrl pg with
  | .error _ => (1, st0, [])
  | .ok vs =>
    let r := pipelineRun force saveParquet ext vs st0
    (0, r.1, r.2.2)

/-! ### Auxiliary definitions used only to state claims -/

/-- `ref_no` strings the spec counts as having a "numeric interpretation":
an optional sign followed by one or more digits and nothing else. -/
def isNumericRef (s : String) : Bool :=
  let cs :=
    match s.data with
    | '-' :: t => t
    | '+' :: t => t
    | t => t
  !cs.isEmpty && cs.all Char.isDigit

/-- The placement property asserted by the read-back-ordering claim: every
row whose `ref_no` is non-numeric or empty comes after all rows with a
numeric `ref_no` (no non-numeric row precedes a numeric one). -/
def nonNumericAfterNumeric : List DbRow → Bool
  | [] => true
  | x :: t =>
    (if isNumericRef x.ref_no then true
     else t.all fun y => ! isNumericRef y.ref_no) &&
      nonNumericAfterNumeric t

/-- Rows of a group, by group key, inside the materialized shard. -/
def csvMatch (k : GroupKey) (r : CsvRow) : Bool :=
  r.vehicle_id == k.vehicle_id && r.group_type == k.group_type &&
    r.table_no == k.table_no && r.group_code == k.group_code

/-! ### Concrete inputs used by witnesses and counterexamples -/

def c4Row : DbRow :=
  ⟨"vq", "ENGINE", "E-1", "G1", "1", "P1", "old desc", "", "", "", "", "", "", ""⟩

def c4Dict : CsvRow :=
  ⟨"vq", "VQ", "M1", "ENGINE", "E-1", "G1", "gd", "1", "P1", "new desc",
   "", "", "", "", "", "", ""⟩

def c4Store : Store := { emptyStore with parts := [c4Row] }

def c5RowX : DbRow :=
  ⟨"v", "ENGINE", "E-1", "G1", "X", "P1", "d", "", "", "", "", "", "", ""⟩

def c5Row5 : DbRow :=
  ⟨"v", "ENGINE", "E-1", "G1", "5", "P2", "d", "", "", "", "", "", "", ""⟩

def c9V : Vehicle := ⟨"v9", "V9", "M9", "u9"⟩

def c9Ti : TableIndex := ⟨"v9", "ENGINE", "1", "E-1", "gd9", "G9", none, "au9"⟩

def c9Pp : PartsPage := ⟨"v9", "ENGINE", "E-1", "G9", "purl9", none⟩

/-- A shard holding one previously materialized row for the C9 group. -/
def c9St : Store :=
  { emptyStore with
    csv := some [⟨"v9", "V9", "M9", "ENGINE", "E-1", "G9", "gd9", "1", "P1",
      "d", "", "", "", "", "", "purl9", "u9"⟩] }

/-- Invariant of the first pipeline run from a fresh store: checkpoint keys
are unique, every checkpoint row is a `done` row belonging to a discovered
group of an already-processed vehicle, every group of a processed vehicle is
`done`, and the canonical part keys are unique. -/
def run1Inv (gs : Vehicle → List TableIndex) (processed : List Vehicle)
    (st : Store) : Prop :=
  (st.checkpoints.map Prod.fst).Nodup ∧
  (∀ e ∈ st.checkpoints, e.2.status = "done" ∧
    ∃ v ∈ processed, ∃ ti ∈ gs v, e.1 = keyOf v ti) ∧
  (∀ v ∈ processed, ∀ ti ∈ gs v,
    DataStore.checkpoint_status st (keyOf v ti) = some "done") ∧
  (st.parts.map rowKey).Nodup

/-- The milestone entries the orchestrator appends while processing a list
of vehicle ids, starting from a processed-count and batch counter. -/
def msFor : Nat → Nat → List String → List (Nat × String)
  | _, _, [] => []
  | cnt, batch, vid :: rest =>
    if (cnt + 1) % milestoneEvery = 0 then
      (batch + 1, vid) :: msFor (cnt + 1) (batch + 1) rest
    else msFor (cnt + 1) batch rest

def c7Filler : Vehicle := ⟨"vf", "VF", "MF", "uf"⟩

def c7V30 : Vehicle := ⟨"v30", "V30", "M30", "u30"⟩

def c7V60 : Vehicle := ⟨"v60", "V60", "M60", "u60"⟩

/-- An Extractor reporting zero groups for every vehicle — such vehicles
still count as processed for milestone purposes. -/
def c7Ext : Extractor := ⟨fun _ => some [], fun _ _ => none⟩

def c1V : Vehicle := ⟨"v1", "V1", "M1", "u1"⟩

def c1Ti : TableIndex := ⟨"v1", "ENGINE", "1", "E-1", "g", "G1", none, "au1"⟩

/-- An Extractor reporting one group for the C1 vehicle. -/
def c1Ext : Extractor :=
  ⟨fun _ => some [c1Ti],
   fun _ ti => some (⟨"v1", "ENGINE", ti.table_no, ti.group_code, "pu1", none⟩, [], false)⟩

/-- The single discovered group is already `done`. -/
def c1St : Store :=
  { emptyStore with
    checkpoints := [(keyOf c1V c1Ti, ⟨"done", some 1, false, none⟩)] }

def c6V : Vehicle := ⟨"v6", "V6", "M6", "u6"⟩

def c6A : TableIndex := ⟨"v6", "ENGINE", "1", "E-1", "g", "GA", none, "au6"⟩

def c6B : TableIndex := ⟨"v6", "ENGINE", "2", "E-2", "g", "GB", none, "au6"⟩

def c6C : TableIndex := ⟨"v6", "ENGINE", "3", "E-3", "g", "GC", none, "au6"⟩

/-- An Extractor for which exactly group B's extraction raises. -/
def c6Ext : Extractor :=
  ⟨fun _ => some [c6A, c6B, c6C],
   fun _ ti =>
     if ti = c6B then none
     else some (⟨"v6", "ENGINE", ti.table_no, ti.group_code, "pu6", none⟩, [], false)⟩

/-- Group A is already `done` before the loop runs. -/
def c6St : Store :=
  { emptyStore with
    checkpoints := [(keyOf c6V c6A, ⟨"done", some 2, false, none⟩)] }

/-- A catalogue page whose `#datatable-t2` table is missing. -/
def c8Pg : CataloguePage := ⟨false, [("A", "M")]⟩

/-- An Extractor whose every per-group extraction fails. -/
def c8Ext : Extractor := ⟨fun _ => some [], fun _ _ => none⟩

def c2V : Vehicle := ⟨"v2", "V2", "M2", "u2"⟩

def c2G1 : TableIndex := ⟨"v2", "ENGINE", "1", "E-1", "g1", "G1", none, "au2"⟩

def c2G2 : TableIndex := ⟨"v2", "FRAME", "2", "F-1", "g2", "G2", none, "au2"⟩

/-- The spec §8 scenario: vehicle V1 with one ENGINE and one FRAME group,
two part rows for the first, none for the second. -/
def c2Ext : Extractor :=
  ⟨fun _ => some [c2G1, c2G2],
   fun _ ti =>
     some (⟨"v2", ti.group_type, ti.table_no, ti.group_code, "pu2", none⟩,
       (if ti = c2G1 then
         [⟨"v2", "ENGINE", "E-1", "G1", "1", "P1", "d1", "", "", "", ""⟩,
          ⟨"v2", "ENGINE", "E-1", "G1", "2", "P2", "d2", "", "", "", ""⟩]
        else []), false)⟩

def c3V : Vehicle := ⟨"v3", "V3", "M3", "u3"⟩

def c3Ti : TableIndex := ⟨"v3", "ENGINE", "1", "E-2", "gd3", "G3", none, "au3"⟩

def c3Pp : PartsPage := ⟨"v3", "ENGINE", "E-2", "G3", "purl3", none⟩

def c3PartRow (n : String) : PartRow :=
  ⟨"v3", "ENGINE", "E-2", "G3", n, "P" ++ n, "d" ++ n, "", "", "", ""⟩

/-- The three part rows the Extractor now reports for the C3 group. -/
def c3Rows : List PartRow := [c3PartRow "1", c3PartRow "2", c3PartRow "3"]

def c3OldCsvRow (n : String) : CsvRow :=
  ⟨"v3", "V3", "M3", "ENGINE", "E-2", "G3", "gd3", n, "P" ++ n, "d" ++ n,
   "", "", "", "", "", "purl3", "u3"⟩

/-- A store whose shard holds five previously materialized rows for the C3
group, while the canonical store is about to hold only three. -/
def c3St : Store :=
  { emptyStore with
    csv := some [c3OldCsvRow "1", c3OldCsvRow "2", c3OldCsvRow "3",
      c3OldCsvRow "4", c3OldCsvRow "5"] }

/-! ### Helper lemmas -/

theorem upsertOne_append_match (pre post : List DbRow) (old r : DbRow)
    (hk : rowKey old = rowKey r) (hpre : ∀ x ∈ pre, rowKey x ≠ rowKey r) :
    upsertOne (pre ++ old :: post) r = pre ++ mergeRow old r :: post := by
  induction pre with
  | nil => simp [upsertOne, hk]
  | cons x xs ih =>
    have hx : rowKey x ≠ rowKey r := hpre x (by simp)
    simp only [List.cons_append, upsertOne, hx, if_false]
    exact congrArg (List.cons x) (ih fun y hy => hpre y (by simp [hy]))

theorem mergeRow_rowKey (old r : DbRow) : rowKey (mergeRow old r) = rowKey old := rfl

theorem alookup_aset {κ α : Type} [DecidableEq κ] (l : List (κ × α)) (k : κ) (v : α) :
    alookup (aset l k v) k = some v := by
  induction l with
  | nil => simp [aset, alookup]
  | cons e t ih =>
    by_cases h : e.1 = k
    · cases e
      simp_all [aset, alookup]
    · cases e
      simp_all [aset, alookup]

theorem alookup_aset_ne {κ α : Type} [DecidableEq κ] (l : List (κ × α)) (k k' : κ)
    (v : α) (h : k ≠ k') : alookup (aset l k v) k' = alookup l k' := by
  induction l with
  | nil => simp [aset, alookup, h]
  | cons e t ih =>
    obtain ⟨ek, ev⟩ := e
    by_cases he : ek = k
    · subst he
      simp [aset, alookup, h]
    · simp only [aset, if_neg he, alookup]
      by_cases hf : ek = k' <;> simp [hf, ih]

theorem upsertOne_exists_match (tbl : List DbRow) (r : DbRow) :
    ∃ y ∈ upsertOne tbl r, rowKey y = rowKey r := by
  induction tbl with
  | nil => exact ⟨r, by simp [upsertOne], rfl⟩
  | cons x t ih =>
    by_cases h : rowKey x = rowKey r
    · exact ⟨mergeRow x r, by simp [upsertOne, h], by rw [mergeRow_rowKey, h]⟩
    · obtain ⟨y, hy, hk⟩ := ih
      exact ⟨y, by simp [upsertOne, h, hy], hk⟩

theorem dbMatch_of_rowKey_eq {vid gt tn gc : String} {y r : DbRow}
    (hk : rowKey y = rowKey r) (hr : dbMatch vid gt tn gc r = true) :
    dbMatch vid gt tn gc y = true := by
  unfold rowKey at hk
  simp only [PartKey.mk.injEq] at hk
  obtain ⟨h1, h2, h3, h4, -, -⟩ := hk
  unfold dbMatch at *
  rw [h1, h2, h3, h4]
  exact hr

theorem dbMatch_mergeRow (vid gt tn gc : String) (x r : DbRow) :
    dbMatch vid gt tn gc (mergeRow x r) = dbMatch vid gt tn gc x := rfl

theorem upsertOne_preserves_dbMatch (vid gt tn gc : String) (tbl : List DbRow)
    (r : DbRow) (h : ∃ y ∈ tbl, dbMatch vid gt tn gc y = true) :
    ∃ y ∈ upsertOne tbl r, dbMatch vid gt tn gc y = true := by
  induction tbl with
  | nil => simp at h
  | cons x t ih =>
    obtain ⟨y, hy, hpy⟩ := h
    by_cases hk : rowKey x = rowKey r
    · rcases List.mem_cons.mp hy with rfl | hyt
      · exact ⟨mergeRow y r, by simp [upsertOne, hk],
          by rw [dbMatch_mergeRow]; exact hpy⟩
      · exact ⟨y, by simp [upsertOne, hk, hyt], hpy⟩
    · rcases List.mem_cons.mp hy with rfl | hyt
      · exact ⟨y, by simp [upsertOne, hk], hpy⟩
      · obtain ⟨z, hz, hpz⟩ := ih ⟨y, hyt, hpy⟩
        exact ⟨z, by simp [upsertOne, hk, hz], hpz⟩

theorem foldl_upsert_preserves (vid gt tn gc : String) :
    ∀ (ds : List CsvRow) (tbl : List DbRow),
      (∃ y ∈ tbl, dbMatch vid gt tn gc y = true) →
      ∃ y ∈ ds.foldl (fun t d => upsertOne t (toDbRow d)) tbl,
        dbMatch vid gt tn gc y = true
  | [], _, h => h
  | d :: ds, tbl, h =>
    foldl_upsert_preserves vid gt tn gc ds _
      (upsertOne_preserves_dbMatch vid gt tn gc tbl (toDbRow d) h)

theorem upsert_batch_exists (vid gt tn gc : String) :
    ∀ (ds : List CsvRow) (tbl : List DbRow) (d : CsvRow), d ∈ ds →
      dbMatch vid gt tn gc (toDbRow d) = true →
      ∃ y ∈ ds.foldl (fun t e => upsertOne t (toDbRow e)) tbl,
        dbMatch vid gt tn gc y = true
  | [], _, _, hd, _ => absurd hd (by simp)
  | e :: ds, tbl, d, hd, hm => by
    rcases List.mem_cons.mp hd with rfl | hd'
    · obtain ⟨y, hy, hk⟩ := upsertOne_exists_match tbl (toDbRow d)
      exact foldl_upsert_preserves vid gt tn gc ds (upsertOne tbl (toDbRow d))
        ⟨y, hy, dbMatch_of_rowKey_eq hk hm⟩
    · exact upsert_batch_exists vid gt tn gc ds _ d hd' hm

theorem fetch_ne_nil_of_exists {parts : List DbRow} {vid gt tn gc : String}
    (h : ∃ y ∈ parts, dbMatch vid gt tn gc y = true) :
    _fetch_group_df parts vid gt tn gc ≠ [] := by
  intro hnil
  have hperm := List.perm_insertionSort RefLe (parts.filter (dbMatch vid gt tn gc))
  rw [_fetch_group_df] at hnil
  rw [hnil] at hperm
  have hfil : parts.filter (dbMatch vid gt tn gc) = [] := hperm.symm.eq_nil
  obtain ⟨y, hy, hp⟩ := h
  have : y ∈ parts.filter (dbMatch vid gt tn gc) := List.mem_filter.mpr ⟨hy, hp⟩
  rw [hfil] at this
  simp at this

theorem fetch_mem_dbMatch {parts : List DbRow} {vid gt tn gc : String} {y : DbRow}
    (hy : y ∈ _fetch_group_df parts vid gt tn gc) : dbMatch vid gt tn gc y = true :=
  (List.mem_filter.mp ((List.perm_insertionSort RefLe _).subset hy)).2

theorem dbMatch_fields {vid gt tn gc : String} {d : DbRow}
    (h : dbMatch vid gt tn gc d = true) :
    d.vehicle_id = vid ∧ d.group_type = gt ∧ d.table_no = tn ∧ d.group_code = gc := by
  simp only [dbMatch, Bool.and_eq_true, beq_iff_eq] at h
  tauto

theorem filter_after_anti_filter {α : Type} (p : α → Bool) (l : List α) :
    (l.filter fun x => ! p x).filter p = [] := by
  induction l with
  | nil => rfl
  | cons x t ih =>
    by_cases h : p x = true
    · simp [List.filter, h, ih]
    · simp only [Bool.not_eq_true] at h
      simp [List.filter, h, ih]

theorem alookup_mem {κ α : Type} [DecidableEq κ] {l : List (κ × α)} {k : κ} {c : α}
    (h : alookup l k = some c) : (k, c) ∈ l := by
  induction l with
  | nil => simp [alookup] at h
  | cons e t ih =>
    obtain ⟨ek, ev⟩ := e
    by_cases he : ek = k
    · subst he
      simp only [alookup, if_pos rfl] at h
      cases h
      exact List.mem_cons_self _ _
    · simp only [alookup, if_neg he] at h
      exact List.mem_cons_of_mem _ (ih h)

theorem alookup_of_mem_nodup {κ α : Type} [DecidableEq κ] {l : List (κ × α)}
    {k : κ} {c : α} (h : (k, c) ∈ l) (hn : (l.map Prod.fst).Nodup) :
    alookup l k = some c := by
  induction l with
  | nil => simp at h
  | cons e t ih =>
    obtain ⟨ek, ev⟩ := e
    rcases List.mem_cons.mp h with heq | ht
    · cases heq
      simp [alookup]
    · have hk : ek ≠ k := by
        intro hkk
        subst hkk
        have : ek ∈ t.map Prod.fst := List.mem_map.mpr ⟨(ek, c), ht, rfl⟩
        simp_all
      simp only [alookup, if_neg hk]
      exact ih ht (by simpa using hn.of_cons)

theorem append_parts_rows_fields (st : Store) (v : Vehicle) (ti : TableIndex)
    (pp : PartsPage) (rows : List PartRow) (w sp : Bool) :
    (DataStore.append_parts_rows st v ti pp rows w sp).1.checkpoints = st.checkpoints ∧
    (DataStore.append_parts_rows st v ti pp rows w sp).1.partsPages = st.partsPages ∧
    (DataStore.append_parts_rows st v ti pp rows w sp).1.milestones = st.milestones ∧
    (DataStore.append_parts_rows st v ti pp rows w sp).1.vehicles = st.vehicles ∧
    (DataStore.append_parts_rows st v ti pp rows w sp).1.parts
      = (DataStore.convert_parts_to_dict_list v ti pp rows).foldl
          (fun t d => upsertOne t (toDbRow d)) st.parts := by
  simp only [DataStore.append_parts_rows, DataStore.upsert_part_rows]
  repeat' split
  all_goals exact ⟨rfl, rfl, rfl, rfl, rfl⟩

theorem processGroup_fields (force sp : Bool) (st : Store) (v : Vehicle)
    (ti : TableIndex) (res : Option (PartsPage × List PartRow × Bool)) :
    (processGroup force sp st v ti res).1.milestones = st.milestones ∧
    (processGroup force sp st v ti res).1.vehicles = st.vehicles := by
  rcases res with - | ⟨pp, rows, img⟩
  · simp only [processGroup]
    split
    · exact ⟨rfl, rfl⟩
    · exact ⟨rfl, rfl⟩
  · rcases happ : DataStore.append_parts_rows
        (DataStore.upsert_parts_page (DataStore.checkpoint_mark_pending st (keyOf v ti)) pp)
        v ti pp rows true sp with ⟨st3, o⟩
    have h := append_parts_rows_fields
      (DataStore.upsert_parts_page (DataStore.checkpoint_mark_pending st (keyOf v ti)) pp)
      v ti pp rows true sp
    rw [happ] at h
    simp only [processGroup, happ]
    split
    · exact ⟨rfl, rfl⟩
    · split
      · exact ⟨rfl, rfl⟩
      · rcases o with - | n <;>
          exact ⟨by simpa using h.2.2.1, by simpa using h.2.2.2.1⟩

theorem processGroup_status_other (force sp : Bool) (st : Store) (v : Vehicle)
    (ti : TableIndex) (res : Option (PartsPage × List PartRow × Bool)) (k : GroupKey)
    (hk : k ≠ keyOf v ti) :
    DataStore.checkpoint_status (processGroup force sp st v ti res).1 k
      = DataStore.checkpoint_status st k := by
  have hlk : ∀ (l : List (GroupKey × Checkpoint)) (c : Checkpoint),
      alookup (aset l (keyOf v ti) c) k = alookup l k :=
    fun l c => alookup_aset_ne l (keyOf v ti) k c (fun h => hk h.symm)
  rcases res with - | ⟨pp, rows, img⟩
  · simp only [processGroup]
    split
    · rfl
    · simp [DataStore.checkpoint_status, DataStore.checkpoint_mark_error,
        DataStore.checkpoint_mark_pending, hlk]
  · rcases happ : DataStore.append_parts_rows
        (DataStore.upsert_parts_page (DataStore.checkpoint_mark_pending st (keyOf v ti)) pp)
        v ti pp rows true sp with ⟨st3, o⟩
    have h := (append_parts_rows_fields
      (DataStore.upsert_parts_page (DataStore.checkpoint_mark_pending st (keyOf v ti)) pp)
      v ti pp rows true sp).1
    rw [happ] at h
    simp only at h
    have hst3 : alookup st3.checkpoints k = alookup st.checkpoints k := by
      rw [h]
      simp [DataStore.upsert_parts_page, DataStore.checkpoint_mark_pending, hlk]
    simp only [processGroup, happ]
    split
    · rfl
    · split
      · simp [DataStore.checkpoint_status, DataStore.checkpoint_mark_done,
          DataStore.checkpoint_mark_pending, DataStore.upsert_parts_page, hlk]
      · rcases o with - | n <;>
          simp [DataStore.checkpoint_status, DataStore.checkpoint_mark_error,
            DataStore.checkpoint_mark_done, hlk, hst3]

theorem processGroup_skip (sp : Bool) (st : Store) (v : Vehicle) (ti : TableIndex)
    (res : Option (PartsPage × List PartRow × Bool))
    (h : DataStore.checkpoint_status st (keyOf v ti) = some "done") :
    processGroup false sp st v ti res = (st, .skippedDone) := by
  unfold processGroup
  rw [if_pos ⟨h, rfl⟩]

theorem processGroup_not_skipped (force sp : Bool) (st : Store) (v : Vehicle)
    (ti : TableIndex) (res : Option (PartsPage × List PartRow × Bool))
    (hreach : ¬ (DataStore.checkpoint_status st (keyOf v ti) = some "done" ∧
      force = false)) :
    (processGroup force sp st v ti res).2 ≠ .skippedDone := by
  rcases res with - | ⟨pp, rows, img⟩
  · simp only [processGroup]
    rw [if_neg hreach]
    simp
  · rcases happ : DataStore.append_parts_rows
        (DataStore.upsert_parts_page (DataStore.checkpoint_mark_pending st (keyOf v ti)) pp)
        v ti pp rows true sp with ⟨st3, o⟩
    simp only [processGroup, happ]
    rw [if_neg hreach]
    split
    · simp
    · rcases o with - | n <;> simp

theorem processGroup_error_status (force sp : Bool) (st : Store) (v : Vehicle)
    (ti : TableIndex)
    (hreach : ¬ (DataStore.checkpoint_status st (keyOf v ti) = some "done" ∧
      force = false)) :
    DataStore.checkpoint_status (processGroup force sp st v ti none).1 (keyOf v ti)
      = some "error" := by
  unfold processGroup
  rw [if_neg hreach]
  simp [DataStore.checkpoint_status, DataStore.checkpoint_mark_error, alookup_aset]

theorem processGroup_done_preserved (sp : Bool) (st : Store) (v : Vehicle)
    (ti : TableIndex) (res : Option (PartsPage × List PartRow × Bool)) (k : GroupKey)
    (hdone : DataStore.checkpoint_status st k = some "done") :
    DataStore.checkpoint_status (processGroup false sp st v ti res).1 k
      = some "done" := by
  by_cases hk : k = keyOf v ti
  · subst hk
    rw [processGroup_skip sp st v ti res hdone]
    exact hdone
  · rw [processGroup_status_other false sp st v ti res k hk]
    exact hdone

theorem processGroups_outs_keys (force sp : Bool) (ext : Extractor) (v : Vehicle) :
    ∀ (tis : List TableIndex) (st : Store),
      (processGroups force sp ext v st tis).2.map Prod.fst = tis.map (keyOf v)
  | [], _ => rfl
  | ti :: rest, st => by
    simp only [processGroups, List.map_cons]
    rw [processGroups_outs_keys force sp ext v rest]

theorem processGroups_status_other (force sp : Bool) (ext : Extractor) (v : Vehicle) :
    ∀ (tis : List TableIndex) (st : Store) (k : GroupKey),
      (∀ ti ∈ tis, k ≠ keyOf v ti) →
      DataStore.checkpoint_status (processGroups force sp ext v st tis).1 k
        = DataStore.checkpoint_status st k
  | [], _, _, _ => rfl
  | ti :: rest, st, k, hk => by
    simp only [processGroups]
    rw [processGroups_status_other force sp ext v rest _ k
      (fun t ht => hk t (List.mem_cons_of_mem _ ht))]
    exact processGroup_status_other force sp st v ti (ext.extract v ti) k
      (hk ti (List.mem_cons_self _ _))

theorem processGroups_done_preserved (sp : Bool) (ext : Extractor) (v : Vehicle) :
    ∀ (tis : List TableIndex) (st : Store) (k : GroupKey),
      DataStore.checkpoint_status st k = some "done" →
      DataStore.checkpoint_status (processGroups false sp ext v st tis).1 k
        = some "done"
  | [], _, _, h => h
  | ti :: rest, st, k, h => by
    simp only [processGroups]
    exact processGroups_done_preserved sp ext v rest _ k
      (processGroup_done_preserved sp st v ti (ext.extract v ti) k h)

theorem processGroups_milestones (force sp : Bool) (ext : Extractor) (v : Vehicle) :
    ∀ (tis : List TableIndex) (st : Store),
      (processGroups force sp ext v st tis).1.milestones = st.milestones
  | [], _ => rfl
  | ti :: rest, st => by
    simp only [processGroups]
    rw [processGroups_milestones force sp ext v rest]
    exact (processGroup_fields force sp st v ti (ext.extract v ti)).1

theorem processGroups_outcome_of_not_done (sp : Bool) (ext : Extractor) (v : Vehicle) :
    ∀ (tis : List TableIndex) (st : Store),
      (tis.map (keyOf v)).Nodup →
      ∀ ti ∈ tis, DataStore.checkpoint_status st (keyOf v ti) ≠ some "done" →
      ∃ o, (keyOf v ti, o) ∈ (processGroups false sp ext v st tis).2 ∧
        o ≠ GroupOutcome.skippedDone
  | [], _, _, ti, hti, _ => absurd hti (by simp)
  | t :: rest, st, hnodup, ti, hti, hst => by
    rcases List.mem_cons.mp hti with rfl | hti'
    · refine ⟨(processGroup false sp st v ti (ext.extract v ti)).2, ?_, ?_⟩
      · simp [processGroups]
      · exact processGroup_not_skipped false sp st v ti (ext.extract v ti)
          (fun hc => hst hc.1)
    · have hne : keyOf v ti ≠ keyOf v t := by
        intro he
        have h1 : keyOf v t ∈ rest.map (keyOf v) :=
          he ▸ List.mem_map.mpr ⟨ti, hti', rfl⟩
        simp only [List.map_cons, List.nodup_cons] at hnodup
        exact hnodup.1 h1
      have hst' : DataStore.checkpoint_status
          (processGroup false sp st v t (ext.extract v t)).1 (keyOf v ti)
            ≠ some "done" := by
        rw [processGroup_status_other false sp st v t (ext.extract v t) _ hne]
        exact hst
      obtain ⟨o, ho, hno⟩ := processGroups_outcome_of_not_done sp ext v rest
        (processGroup false sp st v t (ext.extract v t)).1
        (by simpa using (List.nodup_cons.mp (by simpa using hnodup)).2) ti hti' hst'
      exact ⟨o, by simp [processGroups, ho], hno⟩

theorem processGroups_error_of_fail (sp : Bool) (ext : Extractor) (v : Vehicle) :
    ∀ (pre : List TableIndex) (post : List TableIndex) (b : TableIndex) (st : Store),
      ext.extract v b = none →
      (((pre ++ b :: post)).map (keyOf v)).Nodup →
      DataStore.checkpoint_status st (keyOf v b) ≠ some "done" →
      DataStore.checkpoint_status
        (processGroups false sp ext v st (pre ++ b :: post)).1 (keyOf v b)
        = some "error"
  | [], post, b, st, hfail, hnodup, hb => by
    simp only [List.nil_append, processGroups, hfail]
    have hpost : ∀ ti ∈ post, keyOf v b ≠ keyOf v ti := by
      intro ti hti heq
      simp only [List.nil_append, List.map_cons, List.nodup_cons] at hnodup
      exact hnodup.1 (heq ▸ List.mem_map.mpr ⟨ti, hti, rfl⟩)
    rw [processGroups_status_other false sp ext v post _ _ hpost]
    exact processGroup_error_status false sp st v b (fun hc => hb hc.1)
  | t :: pre, post, b, st, hfail, hnodup, hb => by
    simp only [List.cons_append, processGroups]
    have hne : keyOf v b ≠ keyOf v t := by
      intro heq
      simp only [List.cons_append, List.map_cons, List.nodup_cons] at hnodup
      exact hnodup.1 (heq ▸ List.mem_map.mpr ⟨b, by simp, rfl⟩)
    have hb' : DataStore.checkpoint_status
        (processGroup false sp st v t (ext.extract v t)).1 (keyOf v b)
          ≠ some "done" := by
      rw [processGroup_status_other false sp st v t (ext.extract v t) _ hne]
      exact hb
    exact processGroups_error_of_fail sp ext v pre post b _ hfail
      (by simpa using (List.nodup_cons.mp (by simpa using hnodup)).2) hb'

/-- The predicate of the spec-modelled vehicle-complete gate. -/
def ckDone (vid : String) (e : GroupKey × Checkpoint) : Bool :=
  e.1.vehicle_id == vid && e.2.status == "done"

theorem is_vehicle_complete_eq (st : Store) (vid : String) (n : Nat) :
    DataStore.is_vehicle_complete st vid n
      = ((st.checkpoints.filter (ckDone vid)).length == n) := rfl

theorem gate_keys_subset (st : Store) (v : Vehicle) (indices : List TableIndex)
    (hcov : ∀ e ∈ st.checkpoints, e.1.vehicle_id = v.vehicle_id →
      e.1 ∈ indices.map (keyOf v)) :
    ∀ k ∈ (st.checkpoints.filter (ckDone v.vehicle_id)).map Prod.fst,
      k ∈ indices.map (keyOf v) := by
  intro k hk
  obtain ⟨e, he, rfl⟩ := List.mem_map.mp hk
  have hef := List.mem_filter.mp he
  have hvid : e.1.vehicle_id = v.vehicle_id := by
    have h2 := hef.2
    simp only [ckDone, Bool.and_eq_true, beq_iff_eq] at h2
    exact h2.1
  exact hcov e hef.1 hvid

theorem gate_keys_nodup (st : Store) (vid : String)
    (hnodupC : (st.checkpoints.map Prod.fst).Nodup) :
    ((st.checkpoints.filter (ckDone vid)).map Prod.fst).Nodup :=
  hnodupC.sublist ((List.filter_sublist _).map Prod.fst)

theorem is_vehicle_complete_of_all_done (st : Store) (v : Vehicle)
    (indices : List TableIndex)
    (hnodupC : (st.checkpoints.map Prod.fst).Nodup)
    (hnodupI : (indices.map (keyOf v)).Nodup)
    (hcov : ∀ e ∈ st.checkpoints, e.1.vehicle_id = v.vehicle_id →
      e.1 ∈ indices.map (keyOf v))
    (hall : ∀ ti ∈ indices, DataStore.checkpoint_status st (keyOf v ti) = some "done") :
    DataStore.is_vehicle_complete st v.vehicle_id indices.length = true := by
  rw [is_vehicle_complete_eq, beq_iff_eq]
  have hmemiff : ∀ k, k ∈ (st.checkpoints.filter (ckDone v.vehicle_id)).map Prod.fst ↔
      k ∈ indices.map (keyOf v) := by
    intro k
    constructor
    · exact gate_keys_subset st v indices hcov k
    · intro hk
      obtain ⟨ti, hti, rfl⟩ := List.mem_map.mp hk
      have hst := hall ti hti
      unfold DataStore.checkpoint_status at hst
      rcases halk : alookup st.checkpoints (keyOf v ti) with - | c
      · rw [halk] at hst
        simp at hst
      · rw [halk] at hst
        simp only [Option.map_some'] at hst
        have hcs : c.status = "done" := Option.some.inj hst
        have hmem := alookup_mem halk
        refine List.mem_map.mpr ⟨(keyOf v ti, c), List.mem_filter.mpr ⟨hmem, ?_⟩, rfl⟩
        simp [ckDone, keyOf, hcs]
  have hperm := (List.perm_ext_iff_of_nodup
    (gate_keys_nodup st v.vehicle_id hnodupC) hnodupI).mpr hmemiff
  calc (st.checkpoints.filter (ckDone v.vehicle_id)).length
      = ((st.checkpoints.filter (ckDone v.vehicle_id)).map Prod.fst).length := by simp
    _ = (indices.map (keyOf v)).length := hperm.length_eq
    _ = indices.length := by simp

theorem is_vehicle_complete_of_not_done (st : Store) (v : Vehicle)
    (indices : List TableIndex)
    (hnodupC : (st.checkpoints.map Prod.fst).Nodup)
    (hnodupI : (indices.map (keyOf v)).Nodup)
    (hcov : ∀ e ∈ st.checkpoints, e.1.vehicle_id = v.vehicle_id →
      e.1 ∈ indices.map (keyOf v))
    (ti0 : TableIndex) (hti0 : ti0 ∈ indices)
    (hnd : DataStore.checkpoint_status st (keyOf v ti0) ≠ some "done") :
    DataStore.is_vehicle_complete st v.vehicle_id indices.length = false := by
  rw [is_vehicle_complete_eq]
  have hnotin : keyOf v ti0 ∉
      (st.checkpoints.filter (ckDone v.vehicle_id)).map Prod.fst := by
    intro hin
    obtain ⟨e, he, hfst⟩ := List.mem_map.mp hin
    have hef := List.mem_filter.mp he
    have hcs : e.2.status = "done" := by
      have h2 := hef.2
      simp only [ckDone, Bool.and_eq_true, beq_iff_eq] at h2
      exact h2.2
    have hmm : (keyOf v ti0, e.2) ∈ st.checkpoints := by
      have : e = (keyOf v ti0, e.2) := by
        rw [← hfst]
      rw [← this]
      exact hef.1
    have := alookup_of_mem_nodup hmm hnodupC
    apply hnd
    unfold DataStore.checkpoint_status
    rw [this]
    simp [hcs]
  have hsub : ∀ k ∈ (st.checkpoints.filter (ckDone v.vehicle_id)).map Prod.fst,
      k ∈ (indices.map (keyOf v)).erase (keyOf v ti0) := by
    intro k hk
    refine hnodupI.mem_erase_iff.mpr ⟨?_, gate_keys_subset st v indices hcov k hk⟩
    intro hkk
    exact hnotin (hkk ▸ hk)
  have hle := ((gate_keys_nodup st v.vehicle_id hnodupC).subperm hsub).length_le
  have hmem0 : keyOf v ti0 ∈ indices.map (keyOf v) := List.mem_map.mpr ⟨ti0, hti0, rfl⟩
  have herase := List.length_erase_of_mem hmem0
  have hpos : 0 < (indices.map (keyOf v)).length := List.length_pos.mpr
    (fun hnil => by simp [hnil] at hmem0)
  have hlen : (st.checkpoints.filter (ckDone v.vehicle_id)).length
      = ((st.checkpoints.filter (ckDone v.vehicle_id)).map Prod.fst).length := by simp
  have : (st.checkpoints.filter (ckDone v.vehicle_id)).length ≠ indices.length := by
    have hilen : (indices.map (keyOf v)).length = indices.length := by simp
    omega
  simpa using this

theorem aset_fresh {κ α : Type} [DecidableEq κ] :
    ∀ (l : List (κ × α)) (k : κ) (c : α),
      alookup l k = none → aset l k c = l ++ [(k, c)]
  | [], _, _, _ => rfl
  | (ek, ev) :: t, k, c, h => by
    simp only [alookup] at h
    by_cases he : ek = k
    · rw [if_pos he] at h
      cases h
    · rw [if_neg he] at h
      simp only [aset, if_neg he, List.cons_append]
      rw [aset_fresh t k c h]

theorem aset_append_last {κ α : Type} [DecidableEq κ] :
    ∀ (l : List (κ × α)) (k : κ) (c c' : α),
      alookup l k = none → aset (l ++ [(k, c)]) k c' = l ++ [(k, c')]
  | [], k, c, c', _ => by simp [aset]
  | (ek, ev) :: t, k, c, c', h => by
    simp only [alookup] at h
    by_cases he : ek = k
    · rw [if_pos he] at h
      cases h
    · rw [if_neg he] at h
      simp only [List.cons_append, aset, if_neg he]
      exact congrArg (List.cons (ek, ev)) (aset_append_last t k c c' h)

theorem alookup_append_single {κ α : Type} [DecidableEq κ] :
    ∀ (l : List (κ × α)) (k q : κ) (c : α),
      q ≠ k → alookup (l ++ [(k, c)]) q = alookup l q
  | [], k, q, c, h => by
    simp only [List.nil_append, alookup, if_neg (fun hh : k = q => h hh.symm)]
  | (ek, ev) :: t, k, q, c, h => by
    simp only [List.cons_append, alookup]
    by_cases he : ek = q
    · rw [if_pos he, if_pos he]
    · rw [if_neg he, if_neg he]
      exact alookup_append_single t k q c h

theorem alookup_none_not_mem {κ α : Type} [DecidableEq κ] :
    ∀ {l : List (κ × α)} {k : κ}, alookup l k = none → k ∉ l.map Prod.fst
  | [], _, _ => by simp
  | (ek, ev) :: t, k, h => by
    simp only [alookup] at h
    by_cases he : ek = k
    · rw [if_pos he] at h
      cases h
    · rw [if_neg he] at h
      simp only [List.map_cons, List.mem_cons]
      rintro (rfl | hmem)
      · exact he rfl
      · exact alookup_none_not_mem h hmem

theorem upsertOne_keys_sub : ∀ (tbl : List DbRow) (r : DbRow) (k : PartKey),
    k ∈ (upsertOne tbl r).map rowKey → k ∈ tbl.map rowKey ∨ k = rowKey r
  | [], r, k, h => by
    simp [upsertOne] at h
    exact Or.inr h
  | x :: t, r, k, h => by
    by_cases hx : rowKey x = rowKey r
    · simp only [upsertOne, if_pos hx, List.map_cons, List.mem_cons,
        mergeRow_rowKey] at h
      rcases h with rfl | h
      · exact Or.inl (by simp)
      · exact Or.inl (by simp [h])
    · simp only [upsertOne, if_neg hx, List.map_cons, List.mem_cons] at h
      rcases h with rfl | h
      · exact Or.inl (by simp)
      · rcases upsertOne_keys_sub t r k h with h' | h'
        · exact Or.inl (by simp [h'])
        · exact Or.inr h'

theorem upsertOne_keys_nodup : ∀ (tbl : List DbRow) (r : DbRow),
    (tbl.map rowKey).Nodup → ((upsertOne tbl r).map rowKey).Nodup
  | [], _, _ => by simp [upsertOne]
  | x :: t, r, h => by
    simp only [List.map_cons, List.nodup_cons] at h
    by_cases hx : rowKey x = rowKey r
    · simp only [upsertOne, if_pos hx, List.map_cons, List.nodup_cons,
        mergeRow_rowKey]
      exact h
    · simp only [upsertOne, if_neg hx, List.map_cons, List.nodup_cons]
      refine ⟨?_, upsertOne_keys_nodup t r h.2⟩
      intro hmem
      rcases upsertOne_keys_sub t r (rowKey x) hmem with h' | h'
      · exact h.1 h'
      · exact hx h'

theorem foldl_upsert_keys_nodup : ∀ (ds : List CsvRow) (tbl : List DbRow),
    (tbl.map rowKey).Nodup →
    ((ds.foldl (fun t d => upsertOne t (toDbRow d)) tbl).map rowKey).Nodup
  | [], _, h => h
  | d :: ds, tbl, h =>
    foldl_upsert_keys_nodup ds _ (upsertOne_keys_nodup tbl (toDbRow d) h)

theorem afterVehicle_fields (st : Store) (stats : RunStats) (v : Vehicle) :
    (afterVehicle st stats v).1.checkpoints = st.checkpoints ∧
    (afterVehicle st stats v).1.parts = st.parts ∧
    (afterVehicle st stats v).1.csv = st.csv ∧
    (afterVehicle st stats v).1.parquet = st.parquet ∧
    (afterVehicle st stats v).1.partsPages = st.partsPages ∧
    (afterVehicle st stats v).1.vehicles = st.vehicles := by
  by_cases hm : (stats.vehiclesProcessed + 1) % milestoneEvery = 0 <;>
    simp [afterVehicle, DataStore.mark_milestone, hm]

theorem foldl_save_vehicle_fields : ∀ (vs : List Vehicle) (st : Store),
    ((vs.foldl DataStore.save_vehicle st).checkpoints = st.checkpoints ∧
      (vs.foldl DataStore.save_vehicle st).parts = st.parts) ∧
    ((vs.foldl DataStore.save_vehicle st).csv = st.csv ∧
      (vs.foldl DataStore.save_vehicle st).parquet = st.parquet ∧
      (vs.foldl DataStore.save_vehicle st).partsPages = st.partsPages)
  | [], _ => ⟨⟨rfl, rfl⟩, rfl, rfl, rfl⟩
  | v :: vs, st => by
    simp only [List.foldl_cons]
    have h := foldl_save_vehicle_fields vs (DataStore.save_vehicle st v)
    exact h

theorem foldl_save_vehicle_milestones : ∀ (vs : List Vehicle) (st : Store),
    (vs.foldl DataStore.save_vehicle st).milestones = st.milestones
  | [], _ => rfl
  | v :: vs, st => by
    simp only [List.foldl_cons]
    rw [foldl_save_vehicle_milestones vs]
    rfl

theorem processVehicle_milestones (f sp : Bool) (ext : Extractor) (st : Store)
    (stats : RunStats) (v : Vehicle) :
    (processVehicle f sp ext st stats v).1.milestones
      = (if (stats.vehiclesProcessed + 1) % milestoneEvery = 0
         then st.milestones ++ [(stats.milestoneBatch + 1, v.vehicle_id)]
         else st.milestones) ∧
    (processVehicle f sp ext st stats v).2.1
      = (if (stats.vehiclesProcessed + 1) % milestoneEvery = 0
         then ⟨stats.vehiclesProcessed + 1, stats.milestoneBatch + 1⟩
         else ⟨stats.vehiclesProcessed + 1, stats.milestoneBatch⟩ : RunStats) := by
  have haft : ∀ s : Store,
      (afterVehicle s stats v).1.milestones
        = (if (stats.vehiclesProcessed + 1) % milestoneEvery = 0
           then s.milestones ++ [(stats.milestoneBatch + 1, v.vehicle_id)]
           else s.milestones) ∧
      (afterVehicle s stats v).2
        = (if (stats.vehiclesProcessed + 1) % milestoneEvery = 0
           then ⟨stats.vehiclesProcessed + 1, stats.milestoneBatch + 1⟩
           else ⟨stats.vehiclesProcessed + 1, stats.milestoneBatch⟩ : RunStats) := by
    intro s
    by_cases hm : (stats.vehiclesProcessed + 1) % milestoneEvery = 0 <;>
      simp [afterVehicle, DataStore.mark_milestone, hm]
  rcases hidx : ext.indices v with - | indices <;> simp only [processVehicle, hidx]
  · exact haft st
  · by_cases hni : indices = []
    · rw [if_pos hni]
      exact haft st
    · rw [if_neg hni]
      by_cases hgate : f = false ∧
          DataStore.is_vehicle_complete st v.vehicle_id indices.length = true
      · rw [if_pos hgate]
        exact haft st
      · rw [if_neg hgate]
        have h := haft (processGroups f sp ext v st indices).1
        rw [processGroups_milestones] at h
        exact h

theorem processVehicles_milestones (f sp : Bool) (ext : Extractor) :
    ∀ (vs : List Vehicle) (st : Store) (stats : RunStats),
      (processVehicles f sp ext st stats vs).1.milestones
        = st.milestones ++ msFor stats.vehiclesProcessed stats.milestoneBatch
            (vs.map Vehicle.vehicle_id) ∧
      (processVehicles f sp ext st stats vs).2.1
        = (⟨stats.vehiclesProcessed + vs.length,
            stats.milestoneBatch + (msFor stats.vehiclesProcessed stats.milestoneBatch
              (vs.map Vehicle.vehicle_id)).length⟩ : RunStats)
  | [], st, stats => by simp [processVehicles, msFor]
  | v :: rest, st, stats => by
    have hv := processVehicle_milestones f sp ext st stats v
    have ih := processVehicles_milestones f sp ext rest
      (processVehicle f sp ext st stats v).1 (processVehicle f sp ext st stats v).2.1
    simp only [processVehicles, List.map_cons]
    constructor
    · rw [ih.1, hv.1, hv.2]
      by_cases hm : (stats.vehiclesProcessed + 1) % milestoneEvery = 0 <;>
        simp [msFor, hm, List.append_assoc]
    · rw [ih.2, hv.2]
      by_cases hm : (stats.vehiclesProcessed + 1) % milestoneEvery = 0 <;>
        simp [msFor, hm, RunStats.mk.injEq] <;> omega

theorem msFor_append : ∀ (xs ys : List String) (cnt batch : Nat),
    msFor cnt batch (xs ++ ys)
      = msFor cnt batch xs ++ msFor (cnt + xs.length)
          (batch + (msFor cnt batch xs).length) ys
  | [], ys, cnt, batch => by simp [msFor]
  | x :: xs, ys, cnt, batch => by
    simp only [List.cons_append, msFor, List.append_eq]
    by_cases hm : (cnt + 1) % milestoneEvery = 0
    · simp only [if_pos hm]
      rw [msFor_append xs ys (cnt + 1) (batch + 1)]
      have e1 : cnt + (x :: xs).length = cnt + 1 + xs.length := by
        simp only [List.length_cons]
        omega
      have e2 : batch + ((batch + 1, x) :: msFor (cnt + 1) (batch + 1) xs).length
          = batch + 1 + (msFor (cnt + 1) (batch + 1) xs).length := by
        simp only [List.length_cons]
        omega
      rw [e1, e2]
      simp
    · simp only [if_neg hm]
      rw [msFor_append xs ys (cnt + 1) batch]
      have e1 : cnt + (x :: xs).length = cnt + 1 + xs.length := by
        simp only [List.length_cons]
        omega
      rw [e1]

theorem msFor_eq_nil : ∀ (l : List String) (cnt batch : Nat),
    (∀ i, i < l.length → (cnt + i + 1) % milestoneEvery ≠ 0) → msFor cnt batch l = []
  | [], _, _, _ => rfl
  | x :: xs, cnt, batch, h => by
    have h0 := h 0 (by simp)
    simp only [msFor, if_neg (by simpa using h0)]
    refine msFor_eq_nil xs (cnt + 1) batch ?_
    intro i hi
    have hh := h (i + 1) (by simp only [List.length_cons]; omega)
    have e : cnt + (i + 1) + 1 = cnt + 1 + i + 1 := by omega
    rw [e] at hh
    exact hh

theorem processGroup_parts_nodup (force sp : Bool) (st : Store) (v : Vehicle)
    (ti : TableIndex) (res : Option (PartsPage × List PartRow × Bool))
    (h : (st.parts.map rowKey).Nodup) :
    ((processGroup force sp st v ti res).1.parts.map rowKey).Nodup := by
  rcases res with - | ⟨pp, rows, img⟩
  · simp only [processGroup]
    split
    · exact h
    · exact h
  · rcases happ : DataStore.append_parts_rows
        (DataStore.upsert_parts_page (DataStore.checkpoint_mark_pending st (keyOf v ti)) pp)
        v ti pp rows true sp with ⟨st3, o⟩
    have hp := (append_parts_rows_fields
      (DataStore.upsert_parts_page (DataStore.checkpoint_mark_pending st (keyOf v ti)) pp)
      v ti pp rows true sp).2.2.2.2
    rw [happ] at hp
    simp only at hp
    have hnd3 : (st3.parts.map rowKey).Nodup := by
      rw [hp]
      exact foldl_upsert_keys_nodup _ _ h
    simp only [processGroup, happ]
    split
    · exact h
    · split
      · exact h
      · rcases o with - | n <;> simpa using hnd3

theorem processGroups_parts_nodup (sp : Bool) (ext : Extractor) (v : Vehicle) :
    ∀ (tis : List TableIndex) (st : Store),
      (st.parts.map rowKey).Nodup →
      ((processGroups false sp ext v st tis).1.parts.map rowKey).Nodup
  | [], _, h => h
  | ti :: rest, st, h =>
    processGroups_parts_nodup sp ext v rest _
      (processGroup_parts_nodup false sp st v ti (ext.extract v ti) h)

theorem append_parts_rows_run (st : Store) (v : Vehicle) (ti : TableIndex)
    (pp : PartsPage) (rows : List PartRow) (sp : Bool) (hrows : rows ≠ []) :
    (DataStore.append_parts_rows st v ti pp rows true sp).2 = some rows.length ∧
    (DataStore.append_parts_rows st v ti pp rows true sp).1.parts
      = (DataStore.upsert_part_rows st
          (DataStore.convert_parts_to_dict_list v ti pp rows)).1.parts ∧
    (DataStore.append_parts_rows st v ti pp rows true sp).1.csv
      = some ((st.csv.getD []).filter (fun r => ! csvMatch (keyOf v ti) r)
          ++ (_fetch_group_df
                (DataStore.append_parts_rows st v ti pp rows true sp).1.parts
                v.vehicle_id ti.group_type ti.table_no ti.group_code).map
              (enrichRow v.vehicle_name v.model_code ti.group_desc)) ∧
    ((DataStore.append_parts_rows st v ti pp rows true sp).1.csv.getD []).filter
        (csvMatch (keyOf v ti))
      = (_fetch_group_df
          (DataStore.append_parts_rows st v ti pp rows true sp).1.parts
          v.vehicle_id ti.group_type ti.table_no ti.group_code).map
          (enrichRow v.vehicle_name v.model_code ti.group_desc) := by
  obtain ⟨r0, rt, rfl⟩ : ∃ a l, rows = a :: l := by
    cases rows with
    | nil => exact absurd rfl hrows
    | cons a l => exact ⟨a, l, rfl⟩
  have hconv : DataStore.convert_parts_to_dict_list v ti pp (r0 :: rt)
      = (⟨v.vehicle_id, v.vehicle_name, v.model_code, ti.group_type, ti.table_no,
          ti.group_code, ti.group_desc, r0.ref_no, r0.part_no, r0.description,
          r0.remark, r0.req_no, r0.moq, r0.mrp, pp.image_path.getD "",
          pp.parts_page_url, v.source_url⟩ : CsvRow)
        :: DataStore.convert_parts_to_dict_list v ti pp rt := rfl
  have hc0m : dbMatch v.vehicle_id ti.group_type ti.table_no ti.group_code
      (toDbRow (⟨v.vehicle_id, v.vehicle_name, v.model_code, ti.group_type, ti.table_no,
        ti.group_code, ti.group_desc, r0.ref_no, r0.part_no, r0.description,
        r0.remark, r0.req_no, r0.moq, r0.mrp, pp.image_path.getD "",
        pp.parts_page_url, v.source_url⟩ : CsvRow)) = true := by
    simp [dbMatch, toDbRow]
  have hex : ∃ y ∈ (DataStore.upsert_part_rows st
      (DataStore.convert_parts_to_dict_list v ti pp (r0 :: rt))).1.parts,
      dbMatch v.vehicle_id ti.group_type ti.table_no ti.group_code y = true :=
    upsert_batch_exists v.vehicle_id ti.group_type ti.table_no ti.group_code
      (DataStore.convert_parts_to_dict_list v ti pp (r0 :: rt)) st.parts _
      (by rw [hconv]; exact List.mem_cons_self _ _) hc0m
  have hne : _fetch_group_df (DataStore.upsert_part_rows st
      (DataStore.convert_parts_to_dict_list v ti pp (r0 :: rt))).1.parts
      v.vehicle_id ti.group_type ti.table_no ti.group_code ≠ [] :=
    fetch_ne_nil_of_exists hex
  obtain ⟨dh, dt', hdf⟩ : ∃ a l, _fetch_group_df (DataStore.upsert_part_rows st
      (DataStore.convert_parts_to_dict_list v ti pp (r0 :: rt))).1.parts
      v.vehicle_id ti.group_type ti.table_no ti.group_code = a :: l := by
    cases hh : _fetch_group_df (DataStore.upsert_part_rows st
        (DataStore.convert_parts_to_dict_list v ti pp (r0 :: rt))).1.parts
        v.vehicle_id ti.group_type ti.table_no ti.group_code with
    | nil => exact absurd hh hne
    | cons a l => exact ⟨a, l, rfl⟩
  have hdhm := @fetch_mem_dbMatch _ v.vehicle_id ti.group_type
    ti.table_no ti.group_code dh (by rw [hdf]; simp)
  obtain ⟨hdh1, hdh2, hdh3, hdh4⟩ := dbMatch_fields hdhm
  -- the CSV mask over the head enriched row equals the group predicate
  have hmask : ∀ r : CsvRow,
      sameGroupRow r (enrichRow v.vehicle_name v.model_code ti.group_desc dh)
        = csvMatch (keyOf v ti) r := by
    intro r
    simp [sameGroupRow, csvMatch, enrichRow, keyOf, hdh1, hdh2, hdh3, hdh4]
  -- all enriched rows match the group predicate
  have hmem : ∀ x ∈ ((dh :: dt').map
      (enrichRow v.vehicle_name v.model_code ti.group_desc)),
      csvMatch (keyOf v ti) x = true := by
    intro x hx
    obtain ⟨d, hd, rfl⟩ := List.mem_map.mp hx
    have hm := @fetch_mem_dbMatch _ v.vehicle_id ti.group_type
      ti.table_no ti.group_code d (by rw [hdf]; exact hd)
    obtain ⟨h1, h2, h3, h4⟩ := dbMatch_fields hm
    simp [csvMatch, enrichRow, keyOf, h1, h2, h3, h4]
  -- evaluate the call
  have hmain : (DataStore.append_parts_rows st v ti pp (r0 :: rt) true sp).1.parts
        = (DataStore.upsert_part_rows st
            (DataStore.convert_parts_to_dict_list v ti pp (r0 :: rt))).1.parts ∧
      (DataStore.append_parts_rows st v ti pp (r0 :: rt) true sp).2
        = some (r0 :: rt).length ∧
      (DataStore.append_parts_rows st v ti pp (r0 :: rt) true sp).1.csv
        = some ((st.csv.getD []).filter (fun r => ! csvMatch (keyOf v ti) r)
            ++ (dh :: dt').map (enrichRow v.vehicle_name v.model_code ti.group_desc)) := by
    unfold DataStore.append_parts_rows
    rw [hconv] at hdf ⊢
    simp only [Bool.true_or, if_true, hdf]
    rw [if_neg (by simp [hconv])]
    cases hcsv : st.csv with
    | none =>
      cases sp <;>
        simp_all [DataStore.upsert_part_rows, DataStore._overwrite_group_in_csv,
          DataStore.convert_parts_to_dict_list]
    | some ex =>
      have hfeq : ex.filter (fun r => ! sameGroupRow r
            (enrichRow v.vehicle_name v.model_code ti.group_desc dh))
          = ex.filter (fun r => ! csvMatch (keyOf v ti) r) := by
        apply List.filter_congr
        intro x _
        rw [hmask x]
      cases sp <;>
        simp_all [DataStore.upsert_part_rows, DataStore._overwrite_group_in_csv,
          DataStore.convert_parts_to_dict_list]
  obtain ⟨hparts, hret, hcsv⟩ := hmain
  refine ⟨hret, hparts, ?_, ?_⟩
  · rw [hcsv, hparts, hdf]
  · rw [hcsv, hparts, hdf]
    simp only [Option.getD_some, List.filter_append, filter_after_anti_filter,
      List.nil_append]
    exact List.filter_eq_self.mpr hmem

theorem processGroup_fresh_ck (sp : Bool) (st : Store) (v : Vehicle)
    (ti : TableIndex) (pp : PartsPage) (rows : List PartRow) (img : Bool)
    (hfresh : alookup st.checkpoints (keyOf v ti) = none) :
    ∃ c : Checkpoint, c.status = "done" ∧
      (processGroup false sp st v ti (some (pp, rows, img))).1.checkpoints
        = st.checkpoints ++ [(keyOf v ti, c)] := by
  have hnd : DataStore.checkpoint_status st (keyOf v ti) ≠ some "done" := by
    unfold DataStore.checkpoint_status
    rw [hfresh]
    simp
  have hpend : (DataStore.checkpoint_mark_pending st (keyOf v ti)).checkpoints
      = st.checkpoints ++ [(keyOf v ti, ⟨"pending", none, false, none⟩)] := by
    simp only [DataStore.checkpoint_mark_pending]
    exact aset_fresh _ _ _ hfresh
  rcases happ : DataStore.append_parts_rows
      (DataStore.upsert_parts_page (DataStore.checkpoint_mark_pending st (keyOf v ti)) pp)
      v ti pp rows true sp with ⟨st3, o⟩
  have hck3 : st3.checkpoints
      = st.checkpoints ++ [(keyOf v ti, ⟨"pending", none, false, none⟩)] := by
    have h := (append_parts_rows_fields
      (DataStore.upsert_parts_page (DataStore.checkpoint_mark_pending st (keyOf v ti)) pp)
      v ti pp rows true sp).1
    rw [happ] at h
    simp only at h
    rw [h]
    simpa [DataStore.upsert_parts_page] using hpend
  simp only [processGroup, happ]
  split
  · next hcond => exact absurd hcond.1 hnd
  · split
    · refine ⟨⟨"done", some 0, img, none⟩, rfl, ?_⟩
      simp only [DataStore.checkpoint_mark_done, DataStore.upsert_parts_page]
      rw [hpend]
      exact aset_append_last _ _ _ _ hfresh
    · rename_i hrows2
      rcases o with - | n
      · exfalso
        have hsnd := (append_parts_rows_run
          (DataStore.upsert_parts_page
            (DataStore.checkpoint_mark_pending st (keyOf v ti)) pp)
          v ti pp rows sp hrows2).1
        rw [happ] at hsnd
        simp at hsnd
      · refine ⟨⟨"done", some rows.length, img, none⟩, rfl, ?_⟩
        simp only [DataStore.checkpoint_mark_done]
        rw [hck3]
        exact aset_append_last _ _ _ _ hfresh

theorem alookup_append_self {κ α : Type} [DecidableEq κ] :
    ∀ (l : List (κ × α)) (k : κ) (c : α),
      alookup l k = none → alookup (l ++ [(k, c)]) k = some c
  | [], k, c, _ => by simp [alookup]
  | (ek, ev) :: t, k, c, h => by
    simp only [alookup] at h
    by_cases he : ek = k
    · rw [if_pos he] at h
      cases h
    · rw [if_neg he] at h
      simp only [List.cons_append, alookup, if_neg he]
      exact alookup_append_self t k c h

theorem processGroups_fresh (sp : Bool) (ext : Extractor) (v : Vehicle) :
    ∀ (tis : List TableIndex) (st : Store),
      (∀ ti ∈ tis, ext.extract v ti ≠ none) →
      ((tis.map (keyOf v))).Nodup →
      (∀ ti ∈ tis, alookup st.checkpoints (keyOf v ti) = none) →
      ((processGroups false sp ext v st tis).1.checkpoints.map Prod.fst
          = st.checkpoints.map Prod.fst ++ tis.map (keyOf v)) ∧
      (∀ e ∈ (processGroups false sp ext v st tis).1.checkpoints,
        e ∈ st.checkpoints ∨ (e.2.status = "done" ∧ e.1 ∈ tis.map (keyOf v))) ∧
      (∀ ti ∈ tis, DataStore.checkpoint_status
        (processGroups false sp ext v st tis).1 (keyOf v ti) = some "done")
  | [], st, _, _, _ =>
    ⟨by simp [processGroups], fun e he => Or.inl he, by simp⟩
  | t :: rest, st, hext, hnodup, hfresh => by
    obtain ⟨⟨pp, rows, img⟩, hres⟩ : ∃ r, ext.extract v t = some r := by
      rcases h : ext.extract v t with - | r
      · exact absurd h (hext t (by simp))
      · exact ⟨r, rfl⟩
    obtain ⟨c, hcs, hck⟩ := processGroup_fresh_ck sp st v t pp rows img
      (hfresh t (by simp))
    have hkne : ∀ ti ∈ rest, keyOf v ti ≠ keyOf v t := by
      intro ti hti heq
      simp only [List.map_cons, List.nodup_cons] at hnodup
      exact hnodup.1 (heq ▸ List.mem_map.mpr ⟨ti, hti, rfl⟩)
    have hfresh' : ∀ ti ∈ rest, alookup
        (processGroup false sp st v t (some (pp, rows, img))).1.checkpoints
        (keyOf v ti) = none := by
      intro ti hti
      rw [hck, alookup_append_single _ _ _ _ (hkne ti hti)]
      exact hfresh ti (List.mem_cons_of_mem _ hti)
    have ih := processGroups_fresh sp ext v rest
      (processGroup false sp st v t (some (pp, rows, img))).1
      (fun ti hti => hext ti (List.mem_cons_of_mem _ hti))
      (by simpa using (List.nodup_cons.mp (by simpa using hnodup)).2)
      hfresh'
    have hstatf : DataStore.checkpoint_status
        (processGroup false sp st v t (some (pp, rows, img))).1 (keyOf v t)
        = some "done" := by
      unfold DataStore.checkpoint_status
      rw [hck, alookup_append_self _ _ _ (hfresh t (by simp))]
      simp [hcs]
    simp only [processGroups, hres]
    refine ⟨?_, ?_, ?_⟩
    · rw [ih.1, hck]
      simp
    · intro e he
      rcases ih.2.1 e he with h1 | h1
      · rw [hck] at h1
        rcases List.mem_append.mp h1 with h2 | h2
        · exact Or.inl h2
        · simp only [List.mem_singleton] at h2
          subst h2
          exact Or.inr ⟨hcs, by simp⟩
      · exact Or.inr ⟨h1.1, by simp [h1.2]⟩
    · intro ti hti
      rcases List.mem_cons.mp hti with rfl | hti'
      · exact processGroups_done_preserved sp ext v rest _ _ hstatf
      · exact ih.2.2 ti hti'

theorem gate_false_of_no_vid (st : Store) (vid : String) (n : Nat)
    (hno : ∀ e ∈ st.checkpoints, e.1.vehicle_id ≠ vid) (hn : n ≠ 0) :
    DataStore.is_vehicle_complete st vid n = false := by
  rw [is_vehicle_complete_eq]
  have hfil : st.checkpoints.filter (ckDone vid) = [] := by
    refine List.filter_eq_nil_iff.mpr ?_
    intro e he
    simp only [ckDone, Bool.and_eq_true, beq_iff_eq, not_and]
    intro hv
    exact absurd hv (hno e he)
  rw [hfil]
  simpa using fun h => hn h.symm

theorem run1_inv (sp : Bool) (ext : Extractor) (gs : Vehicle → List TableIndex)
    (hidx : ∀ v, ext.indices v = some (gs v))
    (hext : ∀ v ti, ext.extract v ti ≠ none) :
    ∀ (rest processed : List Vehicle) (st : Store) (stats : RunStats),
      ((processed ++ rest).map Vehicle.vehicle_id).Nodup →
      (∀ v ∈ rest, ((gs v).map (keyOf v)).Nodup) →
      run1Inv gs processed st →
      run1Inv gs (processed ++ rest) (processVehicles false sp ext st stats rest).1
  | [], processed, st, stats, _, _, hinv => by simpa [processVehicles] using hinv
  | v :: rest, processed, st, stats, hids, hkeys, hinv => by
    have hvfresh : ∀ e ∈ st.checkpoints, e.1.vehicle_id ≠ v.vehicle_id := by
      intro e he heq
      obtain ⟨-, v', hv', ti', hti', hkey⟩ := hinv.2.1 e he
      have hdisj := List.disjoint_of_nodup_append
        (by simpa [List.map_append] using hids)
      have hv'id : v'.vehicle_id ∈ processed.map Vehicle.vehicle_id :=
        List.mem_map.mpr ⟨v', hv', rfl⟩
      have : v'.vehicle_id ≠ v.vehicle_id := by
        intro hee
        exact hdisj hv'id (by simp [hee])
      apply this
      rw [← heq, hkey]
      rfl
    have hstep : run1Inv gs (processed ++ [v])
        (processVehicle false sp ext st stats v).1 := by
      simp only [processVehicle, hidx v]
      by_cases hni : gs v = []
      · rw [if_pos hni]
        obtain ⟨ha1, ha2, -, -, -, -⟩ := afterVehicle_fields st stats v
        refine ⟨by rw [ha1]; exact hinv.1, ?_, ?_, by rw [ha2]; exact hinv.2.2.2⟩
        · intro e he
          rw [ha1] at he
          obtain ⟨hs, v', hv', hrest⟩ := hinv.2.1 e he
          exact ⟨hs, v', List.mem_append_left _ hv', hrest⟩
        · intro v'' hv'' ti hti
          unfold DataStore.checkpoint_status
          rw [ha1]
          rcases List.mem_append.mp hv'' with h | h
          · exact hinv.2.2.1 v'' h ti hti
          · simp only [List.mem_singleton] at h
            subst h
            rw [hni] at hti
            simp at hti
      · rw [if_neg hni]
        have hgf : DataStore.is_vehicle_complete st v.vehicle_id (gs v).length
            = false :=
          gate_false_of_no_vid st v.vehicle_id (gs v).length hvfresh
            (by simpa using hni)
        rw [if_neg (by simp [hgf])]
        have hfreshkeys : ∀ ti ∈ gs v, alookup st.checkpoints (keyOf v ti) = none := by
          intro ti hti
          rcases halk : alookup st.checkpoints (keyOf v ti) with - | c
          · rfl
          · exact absurd rfl (hvfresh (keyOf v ti, c) (alookup_mem halk))
        have hfr := processGroups_fresh sp ext v (gs v) st
          (fun ti _ => hext v ti) (hkeys v (by simp)) hfreshkeys
        obtain ⟨ha1, ha2, -, -, -, -⟩ :=
          afterVehicle_fields (processGroups false sp ext v st (gs v)).1 stats v
        refine ⟨?_, ?_, ?_, ?_⟩
        · rw [ha1, hfr.1]
          rw [List.nodup_append]
          refine ⟨hinv.1, hkeys v (by simp), ?_⟩
          intro k hk1 hk2
          obtain ⟨e, he, hke⟩ := List.mem_map.mp hk1
          obtain ⟨ti, -, hkti⟩ := List.mem_map.mp hk2
          apply hvfresh e he
          rw [hke, ← hkti]
          rfl
        · intro e he
          rw [ha1] at he
          rcases hfr.2.1 e he with h1 | h1
          · obtain ⟨hs, v', hv', hrest⟩ := hinv.2.1 e h1
            exact ⟨hs, v', List.mem_append_left _ hv', hrest⟩
          · obtain ⟨ti, hti, hkti⟩ := List.mem_map.mp h1.2
            exact ⟨h1.1, v, List.mem_append_right _ (by simp), ti, hti, hkti.symm⟩
        · intro v'' hv'' ti hti
          unfold DataStore.checkpoint_status
          rw [ha1]
          rcases List.mem_append.mp hv'' with h | h
          · have := hinv.2.2.1 v'' h ti hti
            exact processGroups_done_preserved sp ext v (gs v) st (keyOf v'' ti) this
          · simp only [List.mem_singleton] at h
            subst h
            exact hfr.2.2 ti hti
        · rw [ha2]
          exact processGroups_parts_nodup sp ext v (gs v) st hinv.2.2.2
    have := run1_inv sp ext gs hidx hext rest (processed ++ [v])
      (processVehicle false sp ext st stats v).1
      (processVehicle false sp ext st stats v).2.1
      (by simpa using hids)
      (fun v' hv' => hkeys v' (List.mem_cons_of_mem _ hv'))
      hstep
    simpa [processVehicles] using this

theorem run2_noop (sp : Bool) (ext : Extractor) (gs : Vehicle → List TableIndex)
    (hidx : ∀ v, ext.indices v = some (gs v)) :
    ∀ (rest : List Vehicle) (st : Store) (stats : RunStats),
      (∀ v ∈ rest, gs v ≠ [] →
        DataStore.is_vehicle_complete st v.vehicle_id (gs v).length = true) →
      ((processVehicles false sp ext st stats rest).1.checkpoints = st.checkpoints ∧
        (processVehicles false sp ext st stats rest).1.parts = st.parts ∧
        (processVehicles false sp ext st stats rest).1.csv = st.csv ∧
        (processVehicles false sp ext st stats rest).1.parquet = st.parquet ∧
        (processVehicles false sp ext st stats rest).1.partsPages = st.partsPages) ∧
      (∀ r ∈ (processVehicles false sp ext st stats rest).2.2, attemptedOf r = [])
  | [], st, stats, _ => ⟨⟨rfl, rfl, rfl, rfl, rfl⟩, by simp [processVehicles]⟩
  | v :: rest, st, stats, hgate => by
    have hstep : ((processVehicle false sp ext st stats v).1.checkpoints
          = st.checkpoints ∧
        (processVehicle false sp ext st stats v).1.parts = st.parts ∧
        (processVehicle false sp ext st stats v).1.csv = st.csv ∧
        (processVehicle false sp ext st stats v).1.parquet = st.parquet ∧
        (processVehicle false sp ext st stats v).1.partsPages = st.partsPages) ∧
        attemptedOf (processVehicle false sp ext st stats v).2.2 = [] := by
      simp only [processVehicle, hidx v]
      by_cases hni : gs v = []
      · rw [if_pos hni]
        obtain ⟨h1, h2, h3, h4, h5, -⟩ := afterVehicle_fields st stats v
        exact ⟨⟨h1, h2, h3, h4, h5⟩, rfl⟩
      · rw [if_neg hni, if_pos ⟨trivial, hgate v (by simp) hni⟩]
        obtain ⟨h1, h2, h3, h4, h5, -⟩ := afterVehicle_fields st stats v
        exact ⟨⟨h1, h2, h3, h4, h5⟩, rfl⟩
    have ih := run2_noop sp ext gs hidx rest
      (processVehicle false sp ext st stats v).1
      (processVehicle false sp ext st stats v).2.1
      (by
        intro v' hv' hni
        have hsame : DataStore.is_vehicle_complete
            (processVehicle false sp ext st stats v).1 v'.vehicle_id (gs v').length
            = DataStore.is_vehicle_complete st v'.vehicle_id (gs v').length := by
          unfold DataStore.is_vehicle_complete
          rw [hstep.1.1]
        rw [hsame]
        exact hgate v' (List.mem_cons_of_mem _ hv') hni)
    constructor
    · refine ⟨?_, ?_, ?_, ?_, ?_⟩ <;> simp only [processVehicles]
      · rw [ih.1.1, hstep.1.1]
      · rw [ih.1.2.1, hstep.1.2.1]
      · rw [ih.1.2.2.1, hstep.1.2.2.1]
      · rw [ih.1.2.2.2.1, hstep.1.2.2.2.1]
      · rw [ih.1.2.2.2.2, hstep.1.2.2.2.2]
    · intro r hr
      simp only [processVehicles, List.mem_cons] at hr
      rcases hr with rfl | hr
      · exact hstep.2
      · exact ih.2 r hr

/-! ### Claim theorems -/

/-- C10: `_infer_group_type` is a pure total function of the stripped,
upper-cased tokens: an `E-` prefix on either token yields `ENGINE` with
priority, else an `F-` prefix yields `FRAME`, else the fallback hint; hence
with a fallback in {ENGINE, FRAME} the result is always one of the two. -/
theorem infer_group_type_cases (tn gc fb : String) :
    ((strStartsWith (stripUpper tn) "E-" || strStartsWith (stripUpper gc) "E-") = true →
      _infer_group_type tn gc fb = "ENGINE") ∧
    ((strStartsWith (stripUpper tn) "E-" || strStartsWith (stripUpper gc) "E-") = false →
      (strStartsWith (stripUpper tn) "F-" || strStartsWith (stripUpper gc) "F-") = true →
      _infer_group_type tn gc fb = "FRAME") ∧
    ((strStartsWith (stripUpper tn) "E-" || strStartsWith (stripUpper gc) "E-") = false →
      (strStartsWith (stripUpper tn) "F-" || strStartsWith (stripUpper gc) "F-") = false →
      _infer_group_type tn gc fb = fb) ∧
    (fb = "ENGINE" ∨ fb = "FRAME" →
      _infer_group_type tn gc fb = "ENGINE" ∨ _infer_group_type tn gc fb = "FRAME") := by
  unfold _infer_group_type
  refine ⟨fun he => by simp [he], fun he hf => by simp [he, hf],
    fun he hf => by simp [he, hf], fun hfb => ?_⟩
  cases he : (strStartsWith (stripUpper tn) "E-" || strStartsWith (stripUpper gc) "E-") <;>
    cases hf : (strStartsWith (stripUpper tn) "F-" || strStartsWith (stripUpper gc) "F-") <;>
    rcases hfb with h | h <;> simp [he, hf, h]

/-- C10 witness: a lower-case `e-` table token classifies as ENGINE. -/
theorem infer_group_type_cases_w : _infer_group_type " e-12 " "x" "FRAME" = "ENGINE" :=
  (infer_group_type_cases " e-12 " "x" "FRAME").1 (by decide)

/-- C4: `upsert_part_rows` is insert-or-update on the six-field natural key:
an empty batch returns the unchanged store and 0; re-submitting a row whose
key matches a stored row replaces only that row's mutable fields, in place,
without changing the row count, and the call returns the number of rows
submitted. -/
theorem upsert_part_rows_merge :
    (∀ st : Store, DataStore.upsert_part_rows st [] = (st, 0)) ∧
    ∀ (st : Store) (d : CsvRow) (pre post : List DbRow) (old : DbRow),
      st.parts = pre ++ old :: post →
      rowKey old = rowKey (toDbRow d) →
      (∀ x ∈ pre, rowKey x ≠ rowKey (toDbRow d)) →
      (DataStore.upsert_part_rows st [d]).2 = 1 ∧
      (DataStore.upsert_part_rows st [d]).1.parts = pre ++ mergeRow old (toDbRow d) :: post ∧
      rowKey (mergeRow old (toDbRow d)) = rowKey old ∧
      (mergeRow old (toDbRow d)).description = d.description ∧
      (DataStore.upsert_part_rows st [d]).1.parts.length = st.parts.length := by
  constructor
  · intro st
    rfl
  · intro st d pre post old hst hk hpre
    have hparts : (DataStore.upsert_part_rows st [d]).1.parts
        = pre ++ mergeRow old (toDbRow d) :: post := by
      show upsertOne st.parts (toDbRow d) = _
      rw [hst]
      exact upsertOne_append_match pre post old (toDbRow d) hk hpre
    refine ⟨rfl, hparts, rfl, rfl, ?_⟩
    rw [hparts, hst]
    simp

/-- C4 witness: re-submitting the stored row with a changed description. -/
theorem upsert_part_rows_merge_w :
    (DataStore.upsert_part_rows c4Store [c4Dict]).2 = 1 ∧
    (DataStore.upsert_part_rows c4Store [c4Dict]).1.parts
      = [] ++ mergeRow c4Row (toDbRow c4Dict) :: [] ∧
    rowKey (mergeRow c4Row (toDbRow c4Dict)) = rowKey c4Row ∧
    (mergeRow c4Row (toDbRow c4Dict)).description = c4Dict.description ∧
    (DataStore.upsert_part_rows c4Store [c4Dict]).1.parts.length = c4Store.parts.length :=
  upsert_part_rows_merge.2 c4Store c4Dict [] [] c4Row rfl (by decide) (by simp)

/-- C5 (amended): the group read-back is a permutation of the group's
canonical rows, sorted by the order SQLite's
`ORDER BY CAST(NULLIF(ref_no,'') AS INT) NULLS LAST, ref_no` realises:
ascending by the integer prefix of `ref_no` (0 when there is none), with
only empty `ref_no` placed after all non-empty ones, ties broken by the raw
`ref_no` string in BINARY order. -/
theorem fetch_group_df_order (parts : List DbRow) (vid gt tn gc : String) :
    List.Sorted RefLe (_fetch_group_df parts vid gt tn gc) ∧
    List.Perm (_fetch_group_df parts vid gt tn gc)
      (parts.filter (fun d => d.vehicle_id == vid && d.group_type == gt &&
        d.table_no == tn && d.group_code == gc)) :=
  ⟨List.sorted_insertionSort RefLe _, List.perm_insertionSort RefLe _⟩

theorem dbMatch_def (vid gt tn gc : String) (d : DbRow) :
    dbMatch vid gt tn gc d = (d.vehicle_id == vid && d.group_type == gt &&
      d.table_no == tn && d.group_code == gc) := rfl

/-- C5 counterexample: `CAST('X' AS INT)` is `0` in SQLite, not NULL, so the
non-numeric `ref_no` `"X"` sorts before the numeric `"5"` — the claim's
"non-numeric after all numeric" placement fails on the fetched order. -/
theorem fetch_group_df_claim_cx :
    nonNumericAfterNumeric (_fetch_group_df [c5Row5, c5RowX] "v" "ENGINE" "E-1" "G1")
      = false := by decide

/-- C2: re-run idempotence — from a fresh store and an Extractor whose
results do not change and never fail, a second non-force full pipeline run
re-attempts zero groups (every group is `done` after the first run and
skipped), leaves the canonical part-row set, the shard content and the
checkpoint table identical, and the canonical row set has no duplicate
natural keys. -/
theorem rerun_idempotent (sp : Bool) (ext : Extractor)
    (gs : Vehicle → List TableIndex) (vs : List Vehicle)
    (hidx : ∀ v, ext.indices v = some (gs v))
    (hext : ∀ v ti, ext.extract v ti ≠ none)
    (hvids : (vs.map Vehicle.vehicle_id).Nodup)
    (hkeys : ∀ v ∈ vs, ((gs v).map (keyOf v)).Nodup) :
    (∀ r ∈ (pipelineRun false sp ext vs
        (pipelineRun false sp ext vs emptyStore).1).2.2, attemptedOf r = []) ∧
    (pipelineRun false sp ext vs (pipelineRun false sp ext vs emptyStore).1).1.parts
      = (pipelineRun false sp ext vs emptyStore).1.parts ∧
    (pipelineRun false sp ext vs (pipelineRun false sp ext vs emptyStore).1).1.csv
      = (pipelineRun false sp ext vs emptyStore).1.csv ∧
    (pipelineRun false sp ext vs
        (pipelineRun false sp ext vs emptyStore).1).1.checkpoints
      = (pipelineRun false sp ext vs emptyStore).1.checkpoints ∧
    (pipelineRun false sp ext vs (pipelineRun false sp ext vs emptyStore).1).1.parquet
      = (pipelineRun false sp ext vs emptyStore).1.parquet ∧
    ((pipelineRun false sp ext vs emptyStore).1.parts.map rowKey).Nodup ∧
    (∀ v ∈ vs, ∀ ti ∈ gs v,
      DataStore.checkpoint_status (pipelineRun false sp ext vs emptyStore).1
        (keyOf v ti) = some "done") := by
  have hpr1 : pipelineRun false sp ext vs emptyStore
      = processVehicles false sp ext (vs.foldl DataStore.save_vehicle emptyStore)
          ⟨0, 0⟩ vs := rfl
  have hsave := foldl_save_vehicle_fields vs emptyStore
  have hinv0 : run1Inv gs [] (vs.foldl DataStore.save_vehicle emptyStore) := by
    refine ⟨?_, ?_, ?_, ?_⟩
    · rw [hsave.1.1]
      simp [emptyStore]
    · intro e he
      rw [hsave.1.1] at he
      simp [emptyStore] at he
    · intro v hv
      simp at hv
    · rw [hsave.1.2]
      simp [emptyStore]
  have hinv1 := run1_inv sp ext gs hidx hext vs [] _ ⟨0, 0⟩
    (by simpa using hvids) hkeys hinv0
  rw [List.nil_append, ← hpr1] at hinv1
  obtain ⟨hnd1, hent, hstat, hpartsnd⟩ := hinv1
  have hsave2 := foldl_save_vehicle_fields vs (pipelineRun false sp ext vs emptyStore).1
  have hgate2 : ∀ v ∈ vs, gs v ≠ [] →
      DataStore.is_vehicle_complete
        (vs.foldl DataStore.save_vehicle (pipelineRun false sp ext vs emptyStore).1)
        v.vehicle_id (gs v).length = true := by
    intro v hv hni
    have heq : DataStore.is_vehicle_complete
        (vs.foldl DataStore.save_vehicle (pipelineRun false sp ext vs emptyStore).1)
          v.vehicle_id (gs v).length
        = DataStore.is_vehicle_complete (pipelineRun false sp ext vs emptyStore).1
            v.vehicle_id (gs v).length := by
      unfold DataStore.is_vehicle_complete
      rw [hsave2.1.1]
    rw [heq]
    refine is_vehicle_complete_of_all_done _ v (gs v) hnd1 (hkeys v hv) ?_ (hstat v hv)
    intro e he hvid
    obtain ⟨-, v', hv', ti', hti', hkey⟩ := hent e he
    have hvv : v' = v := by
      apply List.inj_on_of_nodup_map hvids hv' hv
      show v'.vehicle_id = v.vehicle_id
      have h1 : e.1.vehicle_id = v'.vehicle_id := by
        rw [hkey]
        rfl
      rw [← h1]
      exact hvid
    subst hvv
    rw [hkey]
    exact List.mem_map.mpr ⟨ti', hti', rfl⟩
  have hrun2 := run2_noop sp ext gs hidx vs
    (vs.foldl DataStore.save_vehicle (pipelineRun false sp ext vs emptyStore).1)
    ⟨0, 0⟩ hgate2
  have hpr2 : pipelineRun false sp ext vs (pipelineRun false sp ext vs emptyStore).1
      = processVehicles false sp ext
          (vs.foldl DataStore.save_vehicle (pipelineRun false sp ext vs emptyStore).1)
          ⟨0, 0⟩ vs := rfl
  refine ⟨?_, ?_, ?_, ?_, ?_, hpartsnd, hstat⟩
  · intro r hr
    rw [hpr2] at hr
    exact hrun2.2 r hr
  · rw [hpr2, hrun2.1.2.1, hsave2.1.2]
  · rw [hpr2, hrun2.1.2.2.1, hsave2.2.1]
  · rw [hpr2, hrun2.1.1, hsave2.1.1]
  · rw [hpr2, hrun2.1.2.2.2.1, hsave2.2.2.1]

/-- C2 witness: the spec §8 scenario run twice — no group re-attempted, the
canonical rows unchanged. -/
theorem rerun_idempotent_w :
    (∀ r ∈ (pipelineRun false false c2Ext [c2V]
        (pipelineRun false false c2Ext [c2V] emptyStore).1).2.2,
      attemptedOf r = []) ∧
    (pipelineRun false false c2Ext [c2V]
        (pipelineRun false false c2Ext [c2V] emptyStore).1).1.parts
      = (pipelineRun false false c2Ext [c2V] emptyStore).1.parts := by
  have h := rerun_idempotent false c2Ext (fun _ => [c2G1, c2G2]) [c2V]
    (fun _ => rfl) (by intro v ti hti; simp [c2Ext] at hti) (by decide) (by decide)
  exact ⟨h.1, h.2.1⟩

/-- C7: milestone cadence — with the interval hard-wired to 30, a pipeline
run over 61 vehicles (the 30th being `v30`, the 60th `v60`) records exactly
two milestones, referencing the 30th and the 60th processed vehicle;
skipped, failing and zero-group vehicles all count as processed. -/
theorem milestone_cadence (force sp : Bool) (ext : Extractor) (st0 : Store)
    (a b c : List Vehicle) (v30 v60 : Vehicle)
    (hm : st0.milestones = []) (ha : a.length = 29) (hb : b.length = 29)
    (hc : c.length = 1) :
    (pipelineRun force sp ext (a ++ (v30 :: (b ++ (v60 :: c)))) st0).1.milestones
      = [(1, v30.vehicle_id), (2, v60.vehicle_id)] := by
  obtain ⟨z, rfl⟩ : ∃ z, c = [z] := by
    cases c with
    | nil => simp at hc
    | cons z t =>
      cases t with
      | nil => exact ⟨z, rfl⟩
      | cons w u => simp at hc
  unfold pipelineRun
  have hsave : ((a ++ (v30 :: (b ++ (v60 :: [z])))).foldl DataStore.save_vehicle
      st0).milestones = [] := by
    rw [foldl_save_vehicle_milestones]
    exact hm
  rw [(processVehicles_milestones force sp ext (a ++ (v30 :: (b ++ (v60 :: [z]))))
    _ ⟨0, 0⟩).1, hsave]
  simp only [List.map_append, List.map_cons, List.nil_append]
  rw [msFor_append]
  rw [msFor_eq_nil (a.map Vehicle.vehicle_id) 0 0 (by
    intro i hi
    rw [List.length_map, ha] at hi
    simp only [milestoneEvery]
    omega)]
  simp only [List.length_map, ha, List.nil_append, List.length_nil, Nat.add_zero,
    Nat.zero_add]
  have h30 : (29 + 1) % milestoneEvery = 0 := by
    simp [milestoneEvery]
  simp only [msFor, if_pos h30]
  rw [msFor_append]
  rw [msFor_eq_nil (b.map Vehicle.vehicle_id) (29 + 1) (0 + 1) (by
    intro i hi
    rw [List.length_map, hb] at hi
    simp only [milestoneEvery]
    omega)]
  simp only [List.length_map, hb, List.nil_append, List.length_nil, Nat.add_zero]
  have h60 : (29 + 1 + 29 + 1) % milestoneEvery = 0 := by
    simp [milestoneEvery]
  simp only [msFor, if_pos h60]
  have h61 : ¬ (29 + 1 + 29 + 1 + 1) % milestoneEvery = 0 := by
    simp [milestoneEvery]
  simp [msFor, h61]

/-- C7 witness: a concrete 61-vehicle run records milestones 1 and 2 for the
30th and 60th vehicles. -/
theorem milestone_cadence_w :
    (pipelineRun false false c7Ext
        (List.replicate 29 c7Filler ++ (c7V30 ::
          (List.replicate 29 c7Filler ++ (c7V60 :: [c7Filler])))) emptyStore).1.milestones
      = [(1, c7V30.vehicle_id), (2, c7V60.vehicle_id)] :=
  milestone_cadence false false c7Ext emptyStore (List.replicate 29 c7Filler)
    (List.replicate 29 c7Filler) [c7Filler] c7V30 c7V60 rfl (by simp) (by simp) rfl

/-- C1: the vehicle-complete gate of a non-force run. When every discovered
group of the vehicle has checkpoint status `done`, the whole vehicle is
skipped and its group loop never runs (the store only advances by the
post-vehicle bookkeeping); when at least one discovered group is not
`done`, the vehicle is not skipped, the loop yields one outcome per
discovered group in order, and every not-yet-done group is attempted.
Assumes the checkpoint table's keys are unique (its SQL primary key), the
discovered group keys are distinct, and the vehicle's stored checkpoints all
belong to currently discovered groups. -/
theorem vehicle_skip_correct (sp : Bool) (ext : Extractor) (st : Store)
    (stats : RunStats) (v : Vehicle) (indices : List TableIndex)
    (hidx : ext.indices v = some indices) (hne : indices ≠ [])
    (hnodupC : (st.checkpoints.map Prod.fst).Nodup)
    (hnodupI : (indices.map (keyOf v)).Nodup)
    (hcov : ∀ e ∈ st.checkpoints, e.1.vehicle_id = v.vehicle_id →
      e.1 ∈ indices.map (keyOf v)) :
    ((∀ ti ∈ indices, DataStore.checkpoint_status st (keyOf v ti) = some "done") →
      (processVehicle false sp ext st stats v).2.2 = .skippedVehicle ∧
      (processVehicle false sp ext st stats v).1 = (afterVehicle st stats v).1) ∧
    ((∃ ti ∈ indices, DataStore.checkpoint_status st (keyOf v ti) ≠ some "done") →
      ∃ outs, (processVehicle false sp ext st stats v).2.2 = .processed outs ∧
        outs.map Prod.fst = indices.map (keyOf v) ∧
        ∀ ti ∈ indices, DataStore.checkpoint_status st (keyOf v ti) ≠ some "done" →
          ∃ o, (keyOf v ti, o) ∈ outs ∧ o ≠ GroupOutcome.skippedDone) := by
  constructor
  · intro hall
    have hgate := is_vehicle_complete_of_all_done st v indices hnodupC hnodupI hcov hall
    simp only [processVehicle, hidx]
    rw [if_neg hne, if_pos ⟨trivial, hgate⟩]
    exact ⟨rfl, rfl⟩
  · rintro ⟨ti0, hti0, hnd⟩
    have hgate := is_vehicle_complete_of_not_done st v indices hnodupC hnodupI hcov
      ti0 hti0 hnd
    simp only [processVehicle, hidx]
    rw [if_neg hne, if_neg (by simp [hgate])]
    refine ⟨(processGroups false sp ext v st indices).2, rfl,
      processGroups_outs_keys false sp ext v indices st, ?_⟩
    intro ti hti hnd'
    exact processGroups_outcome_of_not_done sp ext v indices st hnodupI ti hti hnd'

/-- C1 witness: a vehicle whose only discovered group is `done` is skipped
whole. -/
theorem vehicle_skip_correct_w :
    (processVehicle false false c1Ext c1St ⟨0, 0⟩ c1V).2.2
      = VehicleResult.skippedVehicle :=
  ((vehicle_skip_correct false c1Ext c1St ⟨0, 0⟩ c1V [c1Ti] rfl (by decide)
    (by decide) (by decide) (by decide)).1 (by decide)).1

/-- C6: error isolation in the group loop — when one group's extraction
raises, that group ends with checkpoint status `error`; every key that was
`done` before stays `done` (a previously completed group keeps its status);
every group of the vehicle still receives an outcome in order (the loop does
not abort); and every subsequent not-yet-done group is still attempted
(its outcome is not a skip). -/
theorem error_isolation (sp : Bool) (ext : Extractor) (st : Store) (v : Vehicle)
    (pre post : List TableIndex) (b : TableIndex)
    (hfail : ext.extract v b = none)
    (hnodup : ((pre ++ b :: post).map (keyOf v)).Nodup)
    (hb : DataStore.checkpoint_status st (keyOf v b) ≠ some "done") :
    DataStore.checkpoint_status
        (processGroups false sp ext v st (pre ++ b :: post)).1 (keyOf v b)
      = some "error" ∧
    (∀ k, DataStore.checkpoint_status st k = some "done" →
      DataStore.checkpoint_status
        (processGroups false sp ext v st (pre ++ b :: post)).1 k = some "done") ∧
    (processGroups false sp ext v st (pre ++ b :: post)).2.map Prod.fst
      = (pre ++ b :: post).map (keyOf v) ∧
    (∀ ti ∈ post, DataStore.checkpoint_status st (keyOf v ti) ≠ some "done" →
      ∃ o, (keyOf v ti, o) ∈ (processGroups false sp ext v st (pre ++ b :: post)).2 ∧
        o ≠ GroupOutcome.skippedDone) := by
  refine ⟨processGroups_error_of_fail sp ext v pre post b st hfail hnodup hb,
    fun k hk => processGroups_done_preserved sp ext v (pre ++ b :: post) st k hk,
    processGroups_outs_keys false sp ext v (pre ++ b :: post) st, ?_⟩
  intro ti hti hnd
  exact processGroups_outcome_of_not_done sp ext v (pre ++ b :: post) st hnodup ti
    (by simp [hti]) hnd

/-- C6 witness: with groups [A (done), B (raises), C], B ends `error`. -/
theorem error_isolation_w :
    DataStore.checkpoint_status
        (processGroups false false c6Ext c6V c6St ([c6A] ++ c6B :: [c6C])).1
        (keyOf c6V c6B)
      = some "error" :=
  (error_isolation false c6Ext c6St c6V [c6A] [c6C] c6B (by decide) (by decide)
    (by decide)).1

/-- C8: catalog-level discovery failure is fatal — if the catalog table is
absent or no vehicle data is found, the process exits 1 before any vehicle
is processed and the store is untouched; when the listing succeeds the exit
code is 0 for every Extractor, i.e. per-vehicle and per-group failures never
produce a non-zero exit on their own. -/
theorem catalog_failure_fatal (force sp : Bool) (slug : String → String)
    (url : String) (pg : CataloguePage) (ext : Extractor) (st0 : Store) :
    ((pg.tableFound = false ∨ pg.items = []) →
      (mainModel force sp slug url pg ext st0).1 = 1 ∧
      (mainModel force sp slug url pg ext st0).2.1 = st0 ∧
      (mainModel force sp slug url pg ext st0).2.2 = []) ∧
    (pg.tableFound = true → pg.items ≠ [] →
      (mainModel force sp slug url pg ext st0).1 = 0) := by
  constructor
  · intro h
    unfold mainModel collect_vehicles
    rcases h with h | h
    · simp [h]
    · by_cases ht : pg.tableFound = false <;> simp [ht, h]
  · intro h1 h2
    unfold mainModel collect_vehicles
    simp [h1, h2]

/-- C8 witness: a missing catalog table gives exit code 1 with nothing
processed. -/
theorem catalog_failure_fatal_w :
    (mainModel false false id "u" c8Pg c8Ext emptyStore).1 = 1 ∧
    (mainModel false false id "u" c8Pg c8Ext emptyStore).2.1 = emptyStore ∧
    (mainModel false false id "u" c8Pg c8Ext emptyStore).2.2 = [] :=
  (catalog_failure_fatal false false id "u" c8Pg c8Ext emptyStore).1 (Or.inl rfl)

/-- C9 counterexample: with a successful extraction returning zero part rows,
the pipeline does perform a canonical-store upsert: the group's PartsPage
metadata record (part of the canonical store per spec §2 and the glossary)
is upserted, so "performs no canonical-store upsert" fails — here the
`parts_pages` table changes from empty to holding the group's record, while
everything else the claim asserts does hold. -/
theorem zero_row_claim_cx :
    ¬ ((processGroup false false c9St c9V c9Ti (some (c9Pp, [], true))).1.parts
        = c9St.parts ∧
      (processGroup false false c9St c9V c9Ti (some (c9Pp, [], true))).1.partsPages
        = c9St.partsPages ∧
      (processGroup false false c9St c9V c9Ti (some (c9Pp, [], true))).1.csv
        = c9St.csv ∧
      DataStore.checkpoint_status
        (processGroup false false c9St c9V c9Ti (some (c9Pp, [], true))).1
        (keyOf c9V c9Ti) = some "done") := by decide

/-- C9 (amended): a group whose extraction succeeds with an empty part-row
list is still marked `done` with `row_count = 0`; no part-row upsert and no
shard rewrite happen (CSV, Parquet and the `parts` table are untouched, so
previously materialized shard rows for the group remain), but the PartsPage
metadata record is still upserted. -/
theorem zero_row_completion (force sp : Bool) (st : Store) (v : Vehicle)
    (ti : TableIndex) (pp : PartsPage) (img : Bool)
    (hreach : ¬ (DataStore.checkpoint_status st (keyOf v ti) = some "done" ∧
      force = false)) :
    (processGroup force sp st v ti (some (pp, [], img))).1.parts = st.parts ∧
    (processGroup force sp st v ti (some (pp, [], img))).1.csv = st.csv ∧
    (processGroup force sp st v ti (some (pp, [], img))).1.parquet = st.parquet ∧
    (processGroup force sp st v ti (some (pp, [], img))).1.milestones = st.milestones ∧
    alookup (processGroup force sp st v ti (some (pp, [], img))).1.checkpoints
      (keyOf v ti) = some ⟨"done", some 0, img, none⟩ ∧
    (processGroup force sp st v ti (some (pp, [], img))).2 = .completed 0 ∧
    (processGroup force sp st v ti (some (pp, [], img))).1.partsPages
      = aset st.partsPages ⟨pp.vehicle_id, pp.group_type, pp.table_no, pp.group_code⟩
          ⟨pp.parts_page_url, pp.image_path.getD ""⟩ := by
  simp only [processGroup, if_neg hreach]
  refine ⟨?_, ?_, ?_, ?_, ?_, ?_, ?_⟩ <;>
    simp [DataStore.checkpoint_mark_done, DataStore.checkpoint_mark_pending,
      DataStore.upsert_parts_page, alookup_aset]

/-- C3: materializing a group rewrites the shard by removing every existing
row whose `(vehicle_id, group_type, table_no, group_code)` matches the
group and appending exactly the (enriched) rows currently in the canonical
store for the group; in particular, the shard afterwards holds exactly the
canonical group rows — never an accumulation of old and new. The call
returns the submitted-row count. -/
theorem append_parts_rows_materializes (st : Store) (v : Vehicle) (ti : TableIndex)
    (pp : PartsPage) (rows : List PartRow) (sp : Bool) (hrows : rows ≠ []) :
    (DataStore.append_parts_rows st v ti pp rows true sp).2 = some rows.length ∧
    (DataStore.append_parts_rows st v ti pp rows true sp).1.parts
      = (DataStore.upsert_part_rows st
          (DataStore.convert_parts_to_dict_list v ti pp rows)).1.parts ∧
    (DataStore.append_parts_rows st v ti pp rows true sp).1.csv
      = some ((st.csv.getD []).filter (fun r => ! csvMatch (keyOf v ti) r)
          ++ (_fetch_group_df
                (DataStore.append_parts_rows st v ti pp rows true sp).1.parts
                v.vehicle_id ti.group_type ti.table_no ti.group_code).map
              (enrichRow v.vehicle_name v.model_code ti.group_desc)) ∧
    ((DataStore.append_parts_rows st v ti pp rows true sp).1.csv.getD []).filter
        (csvMatch (keyOf v ti))
      = (_fetch_group_df
          (DataStore.append_parts_rows st v ti pp rows true sp).1.parts
          v.vehicle_id ti.group_type ti.table_no ti.group_code).map
          (enrichRow v.vehicle_name v.model_code ti.group_desc) :=
  append_parts_rows_run st v ti pp rows sp hrows

/-- C3 witness: a group with five previously materialized shard rows and
three canonical rows re-materializes to exactly three shard rows, not
eight. -/
theorem append_parts_rows_materializes_w :
    (((DataStore.append_parts_rows c3St c3V c3Ti c3Pp c3Rows true false).1.csv.getD
        []).filter (csvMatch (keyOf c3V c3Ti))).length = 3 := by
  have h := append_parts_rows_materializes c3St c3V c3Ti c3Pp c3Rows false
    (by simp [c3Rows])
  rw [h.2.2.2]
  decide

/-- C9 witness: the amended behaviour at the concrete zero-row input. -/
theorem zero_row_completion_w :
    (processGroup false false c9St c9V c9Ti (some (c9Pp, [], true))).1.parts
      = c9St.parts ∧
    (processGroup false false c9St c9V c9Ti (some (c9Pp, [], true))).1.csv
      = c9St.csv ∧
    (processGroup false false c9St c9V c9Ti (some (c9Pp, [], true))).1.parquet
      = c9St.parquet ∧
    (processGroup false false c9St c9V c9Ti (some (c9Pp, [], true))).1.milestones
      = c9St.milestones ∧
    alookup (processGroup false false c9St c9V c9Ti (some (c9Pp, [], true))).1.checkpoints
      (keyOf c9V c9Ti) = some ⟨"done", some 0, true, none⟩ ∧
    (processGroup false false c9St c9V c9Ti (some (c9Pp, [], true))).2
      = .completed 0 ∧
    (processGroup false false c9St c9V c9Ti (some (c9Pp, [], true))).1.partsPages
      = aset c9St.partsPages ⟨c9Pp.vehicle_id, c9Pp.group_type, c9Pp.table_no, c9Pp.group_code⟩
          ⟨c9Pp.parts_page_url, c9Pp.image_path.getD ""⟩ :=
  zero_row_completion false false c9St c9V c9Ti c9Pp true (by decide)

end Scrapper
